import Mathlib

/-!
Verification of the heads-up Texas Hold'em engine (`backend-python/engine`):
a shallow embedding of `card.py`, `hand_eval.py`, `strength.py`, `game.py`
and `simulation.py`, followed by theorems settling the specification claims.

Numeric chip amounts (Python floats used only for exact small arithmetic in
the source) are modelled as rationals; the action log (pure reporting
strings) is omitted from the game state; the random shuffle is modelled by
passing the post-shuffle deck order as an explicit parameter.
-/

namespace Limitless

/-- Playing card suits (`card.py`, class `Suit`). -/
inductive Suit where
  | spades
  | hearts
  | diamonds
  | clubs
deriving DecidableEq, Repr

/-- Playing card ranks (`card.py`, class `Rank`). -/
inductive Rank where
  | two
  | three
  | four
  | five
  | six
  | seven
  | eight
  | nine
  | ten
  | jack
  | queen
  | king
  | ace
deriving DecidableEq, Repr

/-- `Rank.numeric_value` from `card.py`: the numeric value 2..14 of a rank. -/
def Rank.numeric_value : Rank → Nat
  | .two => 2
  | .three => 3
  | .four => 4
  | .five => 5
  | .six => 6
  | .seven => 7
  | .eight => 8
  | .nine => 9
  | .ten => 10
  | .jack => 11
  | .queen => 12
  | .king => 13
  | .ace => 14

/-- A playing card (`card.py`, class `Card`): an immutable (rank, suit) pair,
compared by the pair. -/
structure Card where
  rank : Rank
  suit : Suit
deriving DecidableEq, Repr

/-- `Card.get_rank_value` from `card.py`. -/
def Card.get_rank_value (c : Card) : Nat := c.rank.numeric_value

/-! ### Sorting helpers

Python's `sorted` is modelled with `List.insertionSort` over the relation
that matches the requested order.  The source sorts rank values ascending
(`sorted(ranks)`), rank values descending (`sorted(ranks, reverse=True)`),
cards by rank value descending, and `Counter.most_common` orders count pairs
by decreasing count. -/

/-- Ascending order on numeric rank values (`sorted(ranks)`). -/
def natAsc (a b : Nat) : Prop := a ≤ b

/-- Descending order on numeric rank values (`sorted(ranks, reverse=True)`). -/
def natDesc (a b : Nat) : Prop := b ≤ a

/-- Descending order on cards by rank value
(`sorted(cards, key=lambda c: c.get_rank_value(), reverse=True)`). -/
def rankGe (a b : Card) : Prop := b.get_rank_value ≤ a.get_rank_value

/-- Decreasing-count order on (value, count) pairs (`Counter.most_common`). -/
def cntDesc (a b : Nat × Nat) : Prop := b.2 ≤ a.2

instance : DecidableRel natAsc := fun a b => inferInstanceAs (Decidable (a ≤ b))

instance : DecidableRel natDesc := fun a b => inferInstanceAs (Decidable (b ≤ a))

instance : DecidableRel rankGe :=
  fun a b => inferInstanceAs (Decidable (b.get_rank_value ≤ a.get_rank_value))

instance : DecidableRel cntDesc := fun a b => inferInstanceAs (Decidable (b.2 ≤ a.2))

instance : IsTotal Nat natAsc := ⟨fun a b => by unfold natAsc; omega⟩

instance : IsTrans Nat natAsc := ⟨fun a b c => by unfold natAsc; omega⟩

instance : IsAntisymm Nat natAsc := ⟨fun a b => by unfold natAsc; omega⟩

instance : IsTotal Nat natDesc := ⟨fun a b => by unfold natDesc; omega⟩

instance : IsTrans Nat natDesc := ⟨fun a b c => by unfold natDesc; omega⟩

instance : IsAntisymm Nat natDesc := ⟨fun a b => by unfold natDesc; omega⟩

instance : IsTotal Card rankGe := ⟨fun a b => by unfold rankGe; omega⟩

instance : IsTrans Card rankGe := ⟨fun a b c => by unfold rankGe; omega⟩

instance : IsTotal (Nat × Nat) cntDesc := ⟨fun a b => by unfold cntDesc; omega⟩

instance : IsTrans (Nat × Nat) cntDesc := ⟨fun a b c => by unfold cntDesc; omega⟩

/-! ### Hand evaluation (`hand_eval.py`) -/

/-- The list of numeric rank values of a hand
(`[c.get_rank_value() for c in cards]`). -/
def rank_values (cards : List Card) : List Nat := cards.map Card.get_rank_value

/-- `Counter(rank values).most_common()`: distinct rank values paired with
their multiplicities, in order of decreasing multiplicity.  (The order among
pairs with equal multiplicity is immaterial: every use below either sorts the
extracted values again or extracts a value whose multiplicity is unique.) -/
def most_common (xs : List Nat) : List (Nat × Nat) :=
  List.insertionSort cntDesc (xs.dedup.map fun r => (r, xs.count r))

/-- `_is_flush`: the five ranks sorted descending when all suits are equal,
`[]` otherwise. -/
def is_flush (cards : List Card) : List Nat :=
  if cards.length ≠ 5 then []
  else if (cards.map Card.suit).dedup.length ≠ 1 then []
  else List.insertionSort natDesc (rank_values cards)

/-- `_is_royal_flush`: flush whose ranks are exactly 10,J,Q,K,A. -/
def is_royal_flush (cards : List Card) : Bool :=
  if cards.length ≠ 5 then false
  else if (is_flush cards).isEmpty then false
  else decide (List.insertionSort natAsc (rank_values cards) = [10, 11, 12, 13, 14])

/-- `_is_straight`: the straight's high card value (5 for the wheel
A-2-3-4-5), 0 when the hand is not a straight. -/
def is_straight (cards : List Card) : Nat :=
  if cards.length ≠ 5 then 0
  else
    let ranks := List.insertionSort natAsc (rank_values cards)
    let r0 := ranks.headD 0
    if ranks = [r0, r0 + 1, r0 + 2, r0 + 3, r0 + 4] then ranks.getLastD 0
    else if ranks = [2, 3, 4, 5, 14] then 5
    else 0

/-- `_is_straight_flush`: high card of the straight when the hand is both a
flush and a straight, 0 otherwise. -/
def is_straight_flush (cards : List Card) : Nat :=
  if cards.length ≠ 5 then 0
  else if (is_flush cards).isEmpty then 0
  else is_straight cards

/-- `_is_quads`: `[quad rank, kicker]` for four of a kind, `[]` otherwise. -/
def is_quads (cards : List Card) : List Nat :=
  if cards.length ≠ 5 then []
  else
    let counts := most_common (rank_values cards)
    if counts.length = 2 ∧ (counts.getD 0 (0, 0)).2 = 4 then
      [(counts.getD 0 (0, 0)).1, (counts.getD 1 (0, 0)).1]
    else []

/-- `_is_boat`: `[trips rank, pair rank]` for a full house, `[]` otherwise. -/
def is_boat (cards : List Card) : List Nat :=
  if cards.length ≠ 5 then []
  else
    let counts := most_common (rank_values cards)
    if counts.length = 2 ∧ (counts.getD 0 (0, 0)).2 = 3 ∧ (counts.getD 1 (0, 0)).2 = 2 then
      [(counts.getD 0 (0, 0)).1, (counts.getD 1 (0, 0)).1]
    else []

/-- `_is_trips`: `[trips rank, kicker, kicker]` (kickers descending) for
three of a kind, `[]` otherwise. -/
def is_trips (cards : List Card) : List Nat :=
  if cards.length ≠ 5 then []
  else
    let counts := most_common (rank_values cards)
    if counts.length = 3 ∧ (counts.getD 0 (0, 0)).2 = 3 then
      (counts.getD 0 (0, 0)).1 ::
        List.insertionSort natDesc [(counts.getD 1 (0, 0)).1, (counts.getD 2 (0, 0)).1]
    else []

/-- `_is_two_pair`: `[high pair, low pair, kicker]` for two pair, `[]`
otherwise. -/
def is_two_pair (cards : List Card) : List Nat :=
  if cards.length ≠ 5 then []
  else
    let counts := most_common (rank_values cards)
    if counts.length = 3 ∧ (counts.getD 0 (0, 0)).2 = 2 ∧ (counts.getD 1 (0, 0)).2 = 2 then
      List.insertionSort natDesc [(counts.getD 0 (0, 0)).1, (counts.getD 1 (0, 0)).1] ++
        [(counts.getD 2 (0, 0)).1]
    else []

/-- `_is_one_pair`: `[pair rank, kicker, kicker, kicker]` (kickers
descending) for one pair, `[]` otherwise. -/
def is_one_pair (cards : List Card) : List Nat :=
  if cards.length ≠ 5 then []
  else
    let counts := most_common (rank_values cards)
    if counts.length = 4 ∧ (counts.getD 0 (0, 0)).2 = 2 then
      (counts.getD 0 (0, 0)).1 ::
        List.insertionSort natDesc
          [(counts.getD 1 (0, 0)).1, (counts.getD 2 (0, 0)).1, (counts.getD 3 (0, 0)).1]
    else []

/-- `_get_high_card`: all five ranks, descending. -/
def get_high_card (cards : List Card) : List Nat :=
  List.insertionSort natDesc (rank_values cards)

/-- `_evaluate_five_cards`: classify exactly five cards into the comparable
(category, tiebreak vector) pair, checking the strongest category first. -/
def evaluate_five_cards (cards : List Card) : Nat × List Nat :=
  if is_royal_flush cards then (10, [14, 13, 12, 11, 10])
  else if is_straight_flush cards ≠ 0 then (9, [is_straight_flush cards])
  else if is_quads cards ≠ [] then (8, is_quads cards)
  else if is_boat cards ≠ [] then (7, is_boat cards)
  else if is_flush cards ≠ [] then (6, is_flush cards)
  else if is_straight cards ≠ 0 then (5, [is_straight cards])
  else if is_trips cards ≠ [] then (4, is_trips cards)
  else if is_two_pair cards ≠ [] then (3, is_two_pair cards)
  else if is_one_pair cards ≠ [] then (2, is_one_pair cards)
  else (1, get_high_card cards)

/-- Python `>` on lists of integers: lexicographic, with a longer list
beating an equal prefix. -/
def list_gt : List Nat → List Nat → Bool
  | _ :: _, [] => true
  | [], _ => false
  | x :: xs, y :: ys => if x > y then true else if x < y then false else list_gt xs ys

/-- Python `>` on (category, tiebreak) pairs: compare the category, then the
tiebreak lists lexicographically. -/
def pair_gt (s t : Nat × List Nat) : Bool :=
  if s.1 > t.1 then true
  else if s.1 < t.1 then false
  else list_gt s.2 t.2

/-- `itertools.combinations(cards, k)` in the library's lexicographic-by-index
order. -/
def combinations : Nat → List Card → List (List Card)
  | 0, _ => [[]]
  | _ + 1, [] => []
  | k + 1, x :: xs => (combinations k xs).map (x :: ·) ++ combinations (k + 1) xs

/-- One step of the best-combination fold of `_get_best_five_card_hand`:
keep the first combination whose score strictly beats the running best. -/
def best_five_step (acc : Option (List Card) × Nat × List Nat) (combo : List Card) :
    Option (List Card) × Nat × List Nat :=
  let s := evaluate_five_cards combo
  if pair_gt s acc.2 then (some combo, s) else acc

/-- `_get_best_five_card_hand`: for five cards, the hand sorted by rank value
descending; for more, the first five-card combination attaining the maximal
(category, tiebreak) under Python tuple comparison, sorted descending. -/
def get_best_five_card_hand (cards : List Card) : List Card :=
  if cards.length = 5 then List.insertionSort rankGe cards
  else
    let r := (combinations 5 cards).foldl best_five_step (none, 0, [])
    List.insertionSort rankGe (r.1.getD [])

/-- The result of `rank_hand`: numeric category, tiebreak vector, and the
metadata dictionary (absent keys modelled as `none`). -/
structure RankResult where
  score : Nat
  tiebreakers : List Nat
  board_chop : Option Bool := none
  hole_cards_play : Option Bool := none
  trips_type : Option String := none
deriving DecidableEq, Repr

/-- `_determine_trips_type`: `set` for a pocket pair plus one board card of
the trips rank, `trips` otherwise. -/
def determine_trips_type (best_hand hole_cards all_cards : List Card) : String :=
  let ranks := rank_values best_hand
  match ranks.dedup.find? fun r => ranks.count r == 3 with
  | none => "trips"
  | some trips_rank =>
    let hole_ranks := rank_values hole_cards
    let trips_in_hole := hole_ranks.count trips_rank
    let board_cards := all_cards.filter fun c => decide (c ∉ hole_cards)
    let trips_on_board := (rank_values board_cards).count trips_rank
    if trips_in_hole = 2 then "set"
    else if trips_in_hole = 1 ∧ trips_on_board = 2 then "trips"
    else "trips"

/-- The category-detection chain of `rank_hand` (its lines after validation):
identical classification order to `_evaluate_five_cards`, additionally
carrying the metadata and recording `trips_type` in the trips branch when
hole cards were supplied. -/
def classify_best_hand (best_hand : List Card) (hole_cards : Option (List Card))
    (all_cards : List Card) (bc hcp : Option Bool) : RankResult :=
  if is_royal_flush best_hand then ⟨10, [14, 13, 12, 11, 10], bc, hcp, none⟩
  else if is_straight_flush best_hand ≠ 0 then ⟨9, [is_straight_flush best_hand], bc, hcp, none⟩
  else if is_quads best_hand ≠ [] then ⟨8, is_quads best_hand, bc, hcp, none⟩
  else if is_boat best_hand ≠ [] then ⟨7, is_boat best_hand, bc, hcp, none⟩
  else if is_flush best_hand ≠ [] then ⟨6, is_flush best_hand, bc, hcp, none⟩
  else if is_straight best_hand ≠ 0 then ⟨5, [is_straight best_hand], bc, hcp, none⟩
  else if is_trips best_hand ≠ [] then
    ⟨4, is_trips best_hand, bc, hcp,
      match hole_cards with
      | some hc => some (determine_trips_type best_hand hc all_cards)
      | none => none⟩
  else if is_two_pair best_hand ≠ [] then ⟨3, is_two_pair best_hand, bc, hcp, none⟩
  else if is_one_pair best_hand ≠ [] then ⟨2, is_one_pair best_hand, bc, hcp, none⟩
  else ⟨1, get_high_card best_hand, bc, hcp, none⟩

def errEmptyHand : String := "Cannot rank empty hand"

def errTooFewCards : String := "Need at least 5 cards to rank a hand"

def errDuplicateCards : String := "Duplicate cards detected"

def errHoleCount : String := "hole_cards must contain exactly 2 cards"

def errHoleSubset : String := "hole_cards must be a subset of cards"

/-- `rank_hand` from `hand_eval.py`: validate the input (raising `ValueError`
is modelled by `Except.error`), find the best five-card hand, record the
`board_chop` metadata when at least five non-hole cards are available, and
classify. -/
def rank_hand (cards : List Card) (hole_cards : Option (List Card)) :
    Except String RankResult :=
  if cards = [] then .error errEmptyHand
  else if cards.length < 5 then .error errTooFewCards
  else if cards.dedup.length ≠ cards.length then .error errDuplicateCards
  else
    match hole_cards with
    | some hc =>
      if hc.length ≠ 2 then .error errHoleCount
      else if ¬ hc.all (fun c => decide (c ∈ cards)) then .error errHoleSubset
      else
        let board_cards := cards.filter fun c => decide (c ∉ hc)
        let best_hand := get_best_five_card_hand cards
        if board_cards.length ≥ 5 then
          if best_hand.all (fun c => decide (c ∈ board_cards)) then
            .ok (classify_best_hand best_hand (some hc) cards (some true) (some false))
          else
            .ok (classify_best_hand best_hand (some hc) cards (some false) (some true))
        else .ok (classify_best_hand best_hand (some hc) cards none none)
    | none =>
      .ok (classify_best_hand (get_best_five_card_hand cards) none cards none none)

/-! ### Strength classification (`strength.py`) -/

/-- The body of the non-pocket-pair loop of `classify_pair_strength` for one
hole card: which distinct board rank (sorted descending) it pairs, if any. -/
def classify_hole_card (hole_rank : Nat) (board_ranks : List Nat) : Option String :=
  if hole_rank = board_ranks.getD 0 0 then some "top_pair"
  else if board_ranks.length > 1 ∧ hole_rank = board_ranks.getD 1 0 then some "second_pair"
  else if board_ranks.length > 2 ∧ hole_rank = board_ranks.getD 2 0 then some "third_pair"
  else if hole_rank ∈ board_ranks then some "underpair"
  else none

/-- `classify_pair_strength` from `strength.py`: position of a pocket pair
(or of a paired hole card) relative to the distinct board ranks sorted
descending. -/
def classify_pair_strength (hole_cards : Card × Card) (board : List Card) : String :=
  if board = [] then "no_pair"
  else
    let board_ranks := List.insertionSort natDesc (rank_values board).dedup
    let card1 := hole_cards.1
    let card2 := hole_cards.2
    if card1.get_rank_value = card2.get_rank_value then
      let pair_rank := card1.get_rank_value
      if pair_rank > board_ranks.getD 0 0 then "overpair"
      else if board_ranks.length > 1 ∧ board_ranks.getD 0 0 > pair_rank ∧
          pair_rank > board_ranks.getD 1 0 then "second_pair"
      else if board_ranks.length > 2 ∧ board_ranks.getD 1 0 > pair_rank ∧
          pair_rank > board_ranks.getD 2 0 then "third_pair"
      else "underpair"
    else
      match classify_hole_card card1.get_rank_value board_ranks with
      | some s => s
      | none =>
        match classify_hole_card card2.get_rank_value board_ranks with
        | some s => s
        | none => "no_pair"

/-! ### Game engine (`game.py`)

The decision brain (`brain.py`) is an external policy behind the
`make_preflop_decision` / `make_postflop_decision` interface; it is modelled
as an abstract pair of functions receiving exactly the context the engine
passes.  Chip amounts are rationals.  The action history (pure reporting)
is omitted from the state. -/

/-- Context passed to `make_preflop_decision`. -/
structure PreflopCtx where
  hand : List Card
  position : Nat
  pot : ℚ
  current_stack : ℚ
  big_blind : ℚ
  facing_raise : Bool
  raise_amount : Option ℚ
  facing_3bet : Bool
  facing_4bet : Bool
  is_first_to_act : Bool

/-- Context passed to `make_postflop_decision`. -/
structure PostflopCtx where
  hand : List Card
  board : List Card
  position : Nat
  pot : ℚ
  current_stack : ℚ
  big_blind : ℚ
  is_in_position : Bool
  is_preflop_aggressor : Bool
  facing_bet : Bool
  bet_amount : Option ℚ
  street : String

/-- An abstract decision policy (a brain module): returns an action string
and a bet size. -/
structure Brains where
  preflop : PreflopCtx → String × ℚ
  postflop : PostflopCtx → String × ℚ

/-- A player (`game.py`, class `Player`). -/
structure Player where
  name : String
  stack : ℚ
  position : Nat
  hole_cards : List Card := []
  current_bet : ℚ := 0
  total_invested : ℚ := 0
  is_active : Bool := true
  is_all_in : Bool := false
deriving DecidableEq, Repr

/-- Default used for (unreachable) out-of-range list accesses. -/
def dfltPlayer : Player := { name := "", stack := 0, position := 0 }

/-- `Player.reset_for_new_hand`. -/
def Player.reset_for_new_hand (p : Player) : Player :=
  { p with hole_cards := [], current_bet := 0, total_invested := 0,
           is_active := true, is_all_in := false }

/-- `Player.post_blind`: post the blind, clamped by the stack; the stack
reaching zero flips the all-in flag. -/
def Player.post_blind (p : Player) (amount : ℚ) : Player :=
  let actual_bet := min amount p.stack
  let p := { p with stack := p.stack - actual_bet, current_bet := actual_bet,
                    total_invested := p.total_invested + actual_bet }
  if p.stack = 0 then { p with is_all_in := true } else p

/-- `Player.bet`: raise the committed bet to `amount` (clamped by the stack);
returns the updated player and the resulting committed bet. -/
def Player.bet (p : Player) (amount : ℚ) : Player × ℚ :=
  let additional := amount - p.current_bet
  let actual_additional := min additional p.stack
  let p := { p with stack := p.stack - actual_additional,
                    current_bet := p.current_bet + actual_additional,
                    total_invested := p.total_invested + actual_additional }
  let p := if p.stack = 0 then { p with is_all_in := true } else p
  (p, p.current_bet)

/-- `Player.fold`. -/
def Player.fold_hand (p : Player) : Player := { p with is_active := false }

/-- `Player.win_pot`. -/
def Player.win_pot (p : Player) (amount : ℚ) : Player :=
  { p with stack := p.stack + amount }

/-- The mutable state of `PokerGame` (blinds, deck, players, board, pot,
street bet-to-match, phase). -/
structure PokerGame where
  small_blind : ℚ
  big_blind : ℚ
  deck : List Card
  players : List Player
  board : List Card
  pot : ℚ
  current_bet : ℚ
  game_phase : String
deriving Repr

def preflopStreet : String := "preflop"

def flopStreet : String := "flop"

def turnStreet : String := "turn"

def riverStreet : String := "river"

def showdownPhase : String := "showdown"

def errDeck : String := "Not enough cards in deck"

def errTwoPlayers : String := "Heads-up requires exactly 2 players"

def errNoSuchPlayer : String := "StopIteration"

def errOverrun : String := "Betting round exceeded maximum actions"

def errFuel : String := "internal fuel exhausted"

/-- `Deck.deal`: pop `n` cards off the end of the deck, failing when fewer
remain; returns the dealt cards (in pop order) and the remaining deck. -/
def dealCards (deck : List Card) (n : Nat) : Except String (List Card × List Card) :=
  if deck.length < n then .error errDeck
  else .ok ((deck.drop (deck.length - n)).reverse, deck.take (deck.length - n))

/-- `PokerGame.reset_for_new_hand`: fresh shuffled deck (the post-shuffle
order is the `shuffled` parameter), cleared board/pot/bet, preflop phase,
players reset. -/
def resetForNewHand (shuffled : List Card) (g : PokerGame) : PokerGame :=
  { g with deck := shuffled, board := [], pot := 0, current_bet := 0,
           game_phase := preflopStreet,
           players := g.players.map Player.reset_for_new_hand }

/-- `PokerGame.post_blinds`: button (position 1) posts the small blind, the
big blind (position 0) posts the big blind; the pot and bet-to-match are set
from the amounts actually posted. -/
def postBlinds (g : PokerGame) : Except String PokerGame :=
  if g.players.length ≠ 2 then .error errTwoPlayers
  else
    match g.players.findIdx? (fun p => p.position == 1),
          g.players.findIdx? (fun p => p.position == 0) with
    | some bi, some bbi =>
      let button := (g.players.getD bi dfltPlayer).post_blind g.small_blind
      let players := g.players.set bi button
      let sb_posted := button.current_bet
      let bb := (players.getD bbi dfltPlayer).post_blind g.big_blind
      let players := players.set bbi bb
      let bb_posted := bb.current_bet
      .ok { g with players := players, pot := sb_posted + bb_posted,
                   current_bet := bb_posted }
    | _, _ => .error errNoSuchPlayer

/-- `PokerGame.deal_hole_cards`: two cards to each player, in seating order. -/
def dealHoleCardsAux (g : PokerGame) : List Nat → Except String PokerGame
  | [] => .ok g
  | i :: rest => do
    let (dealt, deck) ← dealCards g.deck 2
    let p := g.players.getD i dfltPlayer
    dealHoleCardsAux
      { g with deck := deck, players := g.players.set i { p with hole_cards := dealt } } rest

def dealHoleCards (g : PokerGame) : Except String PokerGame :=
  dealHoleCardsAux g (List.range g.players.length)

/-- `PokerGame.deal_flop`: burn one, deal three to the board. -/
def dealFlop (g : PokerGame) : Except String PokerGame := do
  let (_, deck) ← dealCards g.deck 1
  let (flop, deck) ← dealCards deck 3
  .ok { g with deck := deck, board := g.board ++ flop, game_phase := flopStreet }

/-- `PokerGame.deal_turn`: burn one, deal one. -/
def dealTurn (g : PokerGame) : Except String PokerGame := do
  let (_, deck) ← dealCards g.deck 1
  let (t, deck) ← dealCards deck 1
  .ok { g with deck := deck, board := g.board ++ t, game_phase := turnStreet }

/-- `PokerGame.deal_river`: burn one, deal one. -/
def dealRiver (g : PokerGame) : Except String PokerGame := do
  let (_, deck) ← dealCards g.deck 1
  let (r, deck) ← dealCards deck 1
  .ok { g with deck := deck, board := g.board ++ r, game_phase := riverStreet }

/-- One insertion step of Python's stable `sorted(players, key=position)`
(on indices into the player list); `rev` selects `reverse=True`. -/
def insertPosOrder (ps : List Player) (rev : Bool) (i : Nat) : List Nat → List Nat
  | [] => [i]
  | j :: rest =>
    let ki := (ps.getD i dfltPlayer).position
    let kj := (ps.getD j dfltPlayer).position
    if (rev && decide (kj ≤ ki)) || (!rev && decide (ki ≤ kj)) then i :: j :: rest
    else j :: insertPosOrder ps rev i rest

/-- `sorted([...], key=lambda p: p.position, reverse=rev)` on indices. -/
def orderByPosition (ps : List Player) (rev : Bool) (idxs : List Nat) : List Nat :=
  idxs.foldr (insertPosOrder ps rev) []

/-- `PokerGame.award_pot`: pay the whole pot to the winner, zero the pot. -/
def awardPot (w : Nat) (g : PokerGame) : PokerGame :=
  { g with players := g.players.set w ((g.players.getD w dfltPlayer).win_pot g.pot),
           pot := 0 }

/-- End-of-round epilogue of `betting_round`: clear every player's
street bet (the chips were already moved into the pot action by action). -/
def collectBets (g : PokerGame) : PokerGame :=
  { g with players := g.players.map fun p => { p with current_bet := 0 } }

/-- Result of executing one policy action inside `betting_round`: either the
acting player folded (the round returns `False` immediately) or play
continues with the updated state and last raiser. -/
inductive ActOut where
  | fold (g : PokerGame)
  | cont (g : PokerGame) (last_raiser : Option Nat)

/-- The action-execution block of `PokerGame.betting_round` for the player at
index `i`: `fold` deactivates and ends the hand; `call` matches the street
bet-to-match (clamped by stack); `raise` bets to the larger of the requested
size and twice the bet-to-match (clamped by stack), updates the bet-to-match
to the amount actually committed, and records the raiser; anything else
(including `check`) changes no stakes. -/
def execAction (g : PokerGame) (i : Nat) (last_raiser : Option Nat)
    (action : String) (bet_size : ℚ) : ActOut :=
  if action = "fold" then
    .fold { g with players := g.players.set i (g.players.getD i dfltPlayer).fold_hand }
  else if action = "call" then
    let call_amount := g.current_bet
    let p := g.players.getD i dfltPlayer
    let old_bet := p.current_bet
    let r := p.bet call_amount
    let additional := r.2 - old_bet
    .cont { g with players := g.players.set i r.1, pot := g.pot + additional } last_raiser
  else if action = "raise" then
    let raise_to := max bet_size (g.current_bet * 2)
    let p := g.players.getD i dfltPlayer
    let old_bet := p.current_bet
    let r := p.bet raise_to
    let additional := r.2 - old_bet
    .cont { g with players := g.players.set i r.1, pot := g.pot + additional,
                   current_bet := r.2 } (some i)
  else .cont g last_raiser

/-- The situational context built by `betting_round` and the resulting brain
decision for the acting player. -/
def decideAction (B : Brains) (phase : String) (g : PokerGame) (p : Player) :
    String × ℚ :=
  let facing_raise := decide (p.current_bet < g.current_bet)
  if phase = preflopStreet then
    B.preflop
      { hand := p.hole_cards, position := p.position, pot := g.pot,
        current_stack := p.stack, big_blind := g.big_blind,
        facing_raise := facing_raise,
        raise_amount := if facing_raise then some g.current_bet else none,
        facing_3bet := false, facing_4bet := false,
        is_first_to_act := p.position == 1 }
  else
    B.postflop
      { hand := p.hole_cards, board := g.board, position := p.position,
        pot := g.pot, current_stack := p.stack, big_blind := g.big_blind,
        is_in_position := p.position == 1,
        is_preflop_aggressor := p.position == 1,
        facing_bet := facing_raise,
        bet_amount := if facing_raise then some (g.current_bet - p.current_bet) else none,
        street := phase }

/-- The `while True` loop of `PokerGame.betting_round`, with an explicit fuel
parameter; the source loop always terminates (the action counter is bounded
by its two safety stops), so the fuel is never exhausted in a run the
theorems talk about. -/
def bettingLoop (B : Brains) (phase : String) :
    Nat → PokerGame → List Nat → Nat → Option Nat → Except String (PokerGame × Bool)
  | 0, _, _, _, _ => .error errFuel
  | fuel + 1, g, order, action_count, last_raiser =>
    let i := order.getD (action_count % order.length) 0
    let p := g.players.getD i dfltPlayer
    if p.is_all_in then
      if action_count + 1 > order.length * 20 then .ok (collectBets g, true)
      else bettingLoop B phase fuel g order (action_count + 1) last_raiser
    else
      let all_matched := g.players.all fun q =>
        decide (q.current_bet = g.current_bet) || !q.is_active || q.is_all_in
      let raiser_acted := match last_raiser with
        | none => true
        | some j => decide (action_count ≥ order.length + order.indexOf j)
      if all_matched && decide (action_count ≥ order.length) && raiser_acted then
        .ok (collectBets g, true)
      else if (g.players.filter fun q => q.is_active && !q.is_all_in).length = 0 then
        .ok (collectBets g, true)
      else
        let d := decideAction B phase g p
        match execAction g i last_raiser d.1 d.2 with
        | .fold g => .ok (g, false)
        | .cont g last_raiser =>
          if action_count + 1 > 100 then .error errOverrun
          else bettingLoop B phase fuel g order (action_count + 1) last_raiser

/-- Fuel for `bettingLoop`: comfortably above the source's hard stops
(`action_count > 100` and `len(action_order) * 20`). -/
def bettingFuel : Nat := 1000

/-- `PokerGame.betting_round`: reset street bets (postflop), order the
active non-all-in players (button first preflop, big blind first postflop),
and run the action loop; returns `false` when a fold ended the hand. -/
def bettingRound (B : Brains) (phase : String) (g : PokerGame) :
    Except String (PokerGame × Bool) :=
  let g := if phase ≠ preflopStreet then
      { g with current_bet := 0,
               players := g.players.map fun p => { p with current_bet := 0 } }
    else g
  let elig := (List.range g.players.length).filter fun i =>
    (g.players.getD i dfltPlayer).is_active && !(g.players.getD i dfltPlayer).is_all_in
  let order := orderByPosition g.players (phase = preflopStreet) elig
  if order.length ≤ 1 then .ok (g, true)
  else bettingLoop B phase bettingFuel g order 0 none

def hand_names : List (Nat × String) :=
  [(10, "Royal Flush"), (9, "Straight Flush"), (8, "Quads"), (7, "Boat"),
   (6, "Flush"), (5, "Straight"), (4, "Trips"), (3, "Two Pair"),
   (2, "One Pair"), (1, "High Card")]

def unknownHand : String := "Unknown"

/-- `hand_names.get(score, "Unknown")`. -/
def handName (score : Nat) : String :=
  match hand_names.find? fun x => x.1 == score with
  | some x => x.2
  | none => unknownHand

def opponentFolded : String := "opponent folded"

/-- The hand-evaluation loop of `PokerGame.showdown` over the still-active
player indices: evaluate each hand and keep the first player whose
(category, tiebreak) strictly beats the running best. -/
def showdownLoop (g : PokerGame) :
    List Nat → Option (Nat × Nat × List Nat) → Except String (Nat × Nat × List Nat)
  | [], best =>
    match best with
    | some b => .ok b
    | none => .error errNoSuchPlayer
  | i :: rest, best => do
    let p := g.players.getD i dfltPlayer
    let r ← rank_hand (p.hole_cards ++ g.board) (some p.hole_cards)
    let s := (r.score, r.tiebreakers)
    let best := match best with
      | none => some (i, s)
      | some (j, bs) => if pair_gt s bs then some (i, s) else some (j, bs)
    showdownLoop g rest best

/-- `PokerGame.showdown`: mark the showdown phase and pick the winner among
the still-active players (the sole active player when everyone else folded);
returns the winner's index and the hand description. -/
def showdown (g : PokerGame) : Except String (PokerGame × Nat × String) := do
  let g := { g with game_phase := showdownPhase }
  let active := (List.range g.players.length).filter fun i =>
    (g.players.getD i dfltPlayer).is_active
  if active.length = 1 then
    .ok (g, active.getD 0 0, opponentFolded)
  else do
    let (w, s) ← showdownLoop g active none
    .ok (g, w, handName s.1)

/-- A value of the Python result tuple of `play_hand` (a player reference,
a number, a string, or a boolean). -/
inductive PyVal where
  | player (idx : Nat)
  | num (q : ℚ)
  | str (s : String)
  | bool (b : Bool)
deriving DecidableEq, Repr

/-- The fold-ending return of `play_hand`: the first still-active player wins
the pot; the result tuple is `(winner, amount_won, "opponent folded")`. -/
def foldReturn (g : PokerGame) : Except String (PokerGame × List PyVal) :=
  match g.players.findIdx? (fun p => p.is_active) with
  | none => .error errNoSuchPlayer
  | some w =>
    let amount_won := g.pot
    .ok (awardPot w g, [.player w, .num amount_won, .str opponentFolded])

/-- Step 7 of `PokerGame.play_hand`: showdown, then award the pot; the
result tuple is `(winner, amount_won, hand_desc)`. -/
def playShowdown (g : PokerGame) : Except String (PokerGame × List PyVal) := do
  let (g, w, desc) ← showdown g
  let amount_won := g.pot
  .ok (awardPot w g, [.player w, .num amount_won, .str desc])

/-- Number of still-active players. -/
def countActive (g : PokerGame) : Nat := (g.players.filter fun p => p.is_active).length

/-- Step 6 of `PokerGame.play_hand` (river) followed by the showdown. -/
def playRiver (B : Brains) (both_all_in : Bool) (g : PokerGame) :
    Except String (PokerGame × List PyVal) :=
  if countActive g > 1 then do
    let g ← dealRiver g
    if both_all_in then playShowdown g
    else do
      let s ← bettingRound B riverStreet g
      if s.2 then playShowdown s.1 else foldReturn s.1
  else playShowdown g

/-- Step 5 of `PokerGame.play_hand` (turn). -/
def playTurn (B : Brains) (both_all_in : Bool) (g : PokerGame) :
    Except String (PokerGame × List PyVal) :=
  if countActive g > 1 then do
    let g ← dealTurn g
    if both_all_in then playRiver B both_all_in g
    else do
      let s ← bettingRound B turnStreet g
      if s.2 then playRiver B both_all_in s.1 else foldReturn s.1
  else playRiver B both_all_in g

/-- Step 4 of `PokerGame.play_hand` (flop). -/
def playFlop (B : Brains) (both_all_in : Bool) (g : PokerGame) :
    Except String (PokerGame × List PyVal) :=
  if countActive g > 1 then do
    let g ← dealFlop g
    if both_all_in then playTurn B both_all_in g
    else do
      let s ← bettingRound B flopStreet g
      if s.2 then playTurn B both_all_in s.1 else foldReturn s.1
  else playTurn B both_all_in g

/-- `PokerGame.play_hand`: reset, post blinds, deal, run the four streets
with their betting rounds, then showdown; the shuffled deck order is passed
explicitly.  Returns the final state and the Python result tuple
`(winner, amount_won, hand_desc)`. -/
def playHand (B : Brains) (shuffled : List Card) (g : PokerGame) :
    Except String (PokerGame × List PyVal) := do
  let g := resetForNewHand shuffled g
  let g ← postBlinds g
  let g ← dealHoleCards g
  let s ← bettingRound B preflopStreet g
  if s.2 then
    let g := s.1
    let both_all_in := g.players.all fun p => p.is_all_in || !p.is_active
    playFlop B both_all_in g
  else foldReturn s.1

/-! ### Simulation engine (`simulation.py`)

`simulation.py` re-declares the game engine with small variations: players
carry their own brain module and a VPIP flag, the heads-up button completing
the small blind is presented to the brain as first-to-act, `check` is an
explicit no-op action, and `play_hand` returns the additional
`went_to_showdown` boolean. -/

/-- A player (`simulation.py`, class `SimulationPlayer`). -/
structure SimPlayer where
  name : String
  stack : ℚ
  position : Nat
  brain : Brains
  hole_cards : List Card := []
  current_bet : ℚ := 0
  total_invested : ℚ := 0
  is_active : Bool := true
  is_all_in : Bool := false
  played_voluntarily : Bool := false

/-- Default used for (unreachable) out-of-range list accesses. -/
def dfltSimPlayer : SimPlayer :=
  { name := "", stack := 0, position := 0,
    brain := ⟨fun _ => ("fold", 0), fun _ => ("fold", 0)⟩ }

/-- `SimulationPlayer.reset_for_new_hand`. -/
def SimPlayer.reset_for_new_hand (p : SimPlayer) : SimPlayer :=
  { p with hole_cards := [], current_bet := 0, total_invested := 0,
           is_active := true, is_all_in := false, played_voluntarily := false }

/-- `SimulationPlayer.post_blind`. -/
def SimPlayer.post_blind (p : SimPlayer) (amount : ℚ) : SimPlayer :=
  let actual_bet := min amount p.stack
  let p := { p with stack := p.stack - actual_bet, current_bet := actual_bet,
                    total_invested := p.total_invested + actual_bet }
  if p.stack = 0 then { p with is_all_in := true } else p

/-- `SimulationPlayer.bet`. -/
def SimPlayer.bet (p : SimPlayer) (amount : ℚ) : SimPlayer × ℚ :=
  let additional := amount - p.current_bet
  let actual_additional := min additional p.stack
  let p := { p with stack := p.stack - actual_additional,
                    current_bet := p.current_bet + actual_additional,
                    total_invested := p.total_invested + actual_additional }
  let p := if p.stack = 0 then { p with is_all_in := true } else p
  (p, p.current_bet)

/-- `SimulationPlayer.fold`. -/
def SimPlayer.fold_hand (p : SimPlayer) : SimPlayer := { p with is_active := false }

/-- `SimulationPlayer.win_pot`. -/
def SimPlayer.win_pot (p : SimPlayer) (amount : ℚ) : SimPlayer :=
  { p with stack := p.stack + amount }

/-- The mutable state of `SimulationGame`. -/
structure SimGame where
  small_blind : ℚ
  big_blind : ℚ
  deck : List Card
  players : List SimPlayer
  board : List Card
  pot : ℚ
  current_bet : ℚ
  game_phase : String

/-- `SimulationGame.reset_for_new_hand`. -/
def simReset (shuffled : List Card) (g : SimGame) : SimGame :=
  { g with deck := shuffled, board := [], pot := 0, current_bet := 0,
           game_phase := preflopStreet,
           players := g.players.map SimPlayer.reset_for_new_hand }

/-- `SimulationGame.post_blinds` (no player-count check in this module). -/
def simPostBlinds (g : SimGame) : Except String SimGame :=
  match g.players.findIdx? (fun p => p.position == 1),
        g.players.findIdx? (fun p => p.position == 0) with
  | some bi, some bbi =>
    let button := (g.players.getD bi dfltSimPlayer).post_blind g.small_blind
    let players := g.players.set bi button
    let sb_posted := button.current_bet
    let bb := (players.getD bbi dfltSimPlayer).post_blind g.big_blind
    let players := players.set bbi bb
    let bb_posted := bb.current_bet
    .ok { g with players := players, pot := sb_posted + bb_posted,
                 current_bet := bb_posted }
  | _, _ => .error errNoSuchPlayer

/-- `SimulationGame.deal_hole_cards`. -/
def simDealHoleCardsAux (g : SimGame) : List Nat → Except String SimGame
  | [] => .ok g
  | i :: rest => do
    let (dealt, deck) ← dealCards g.deck 2
    let p := g.players.getD i dfltSimPlayer
    simDealHoleCardsAux
      { g with deck := deck, players := g.players.set i { p with hole_cards := dealt } } rest

def simDealHoleCards (g : SimGame) : Except String SimGame :=
  simDealHoleCardsAux g (List.range g.players.length)

/-- `SimulationGame.deal_flop`. -/
def simDealFlop (g : SimGame) : Except String SimGame := do
  let (_, deck) ← dealCards g.deck 1
  let (flop, deck) ← dealCards deck 3
  .ok { g with deck := deck, board := g.board ++ flop, game_phase := flopStreet }

/-- `SimulationGame.deal_turn`. -/
def simDealTurn (g : SimGame) : Except String SimGame := do
  let (_, deck) ← dealCards g.deck 1
  let (t, deck) ← dealCards deck 1
  .ok { g with deck := deck, board := g.board ++ t, game_phase := turnStreet }

/-- `SimulationGame.deal_river`. -/
def simDealRiver (g : SimGame) : Except String SimGame := do
  let (_, deck) ← dealCards g.deck 1
  let (r, deck) ← dealCards deck 1
  .ok { g with deck := deck, board := g.board ++ r, game_phase := riverStreet }

/-- One insertion step of the position sort on simulation players. -/
def simInsertPosOrder (ps : List SimPlayer) (rev : Bool) (i : Nat) : List Nat → List Nat
  | [] => [i]
  | j :: rest =>
    let ki := (ps.getD i dfltSimPlayer).position
    let kj := (ps.getD j dfltSimPlayer).position
    if (rev && decide (kj ≤ ki)) || (!rev && decide (ki ≤ kj)) then i :: j :: rest
    else j :: simInsertPosOrder ps rev i rest

def simOrderByPosition (ps : List SimPlayer) (rev : Bool) (idxs : List Nat) : List Nat :=
  idxs.foldr (simInsertPosOrder ps rev) []

/-- `SimulationGame.award_pot`. -/
def simAwardPot (w : Nat) (g : SimGame) : SimGame :=
  { g with players := g.players.set w ((g.players.getD w dfltSimPlayer).win_pot g.pot),
           pot := 0 }

/-- End-of-round street-bet reset of `SimulationGame.betting_round`. -/
def simCollectBets (g : SimGame) : SimGame :=
  { g with players := g.players.map fun p => { p with current_bet := 0 } }

/-- Result of one executed simulation action. -/
inductive SimActOut where
  | fold (g : SimGame)
  | cont (g : SimGame) (last_raiser : Option Nat)

/-- The action-execution block of `SimulationGame.betting_round` (the
explicit `check` branch only logs; behaviourally a no-op). -/
def simExecAction (g : SimGame) (i : Nat) (last_raiser : Option Nat)
    (action : String) (bet_size : ℚ) : SimActOut :=
  if action = "fold" then
    .fold { g with players := g.players.set i (g.players.getD i dfltSimPlayer).fold_hand }
  else if action = "check" then .cont g last_raiser
  else if action = "call" then
    let call_amount := g.current_bet
    let p := g.players.getD i dfltSimPlayer
    let old_bet := p.current_bet
    let r := p.bet call_amount
    let additional := r.2 - old_bet
    .cont { g with players := g.players.set i r.1, pot := g.pot + additional } last_raiser
  else if action = "raise" then
    let raise_to := max bet_size (g.current_bet * 2)
    let p := g.players.getD i dfltSimPlayer
    let old_bet := p.current_bet
    let r := p.bet raise_to
    let additional := r.2 - old_bet
    .cont { g with players := g.players.set i r.1, pot := g.pot + additional,
                   current_bet := r.2 } (some i)
  else .cont g last_raiser

/-- The decision context construction of `SimulationGame.betting_round`,
including the heads-up special case: the button merely completing the small
blind preflop is presented to its brain as first to act and not facing a
raise. -/
def simDecideAction (phase : String) (g : SimGame) (p : SimPlayer) : String × ℚ :=
  let facing_raise := decide (p.current_bet < g.current_bet)
  if phase = preflopStreet then
    let is_button_completing := p.position == 1 &&
      decide (p.current_bet = g.small_blind) && decide (g.current_bet = g.big_blind)
    if is_button_completing then
      p.brain.preflop
        { hand := p.hole_cards, position := p.position, pot := g.pot,
          current_stack := p.stack, big_blind := g.big_blind,
          facing_raise := false, raise_amount := none,
          facing_3bet := false, facing_4bet := false, is_first_to_act := true }
    else
      p.brain.preflop
        { hand := p.hole_cards, position := p.position, pot := g.pot,
          current_stack := p.stack, big_blind := g.big_blind,
          facing_raise := facing_raise,
          raise_amount := if facing_raise then some g.current_bet else none,
          facing_3bet := false, facing_4bet := false, is_first_to_act := false }
  else
    p.brain.postflop
      { hand := p.hole_cards, board := g.board, position := p.position,
        pot := g.pot, current_stack := p.stack, big_blind := g.big_blind,
        is_in_position := p.position == 1,
        is_preflop_aggressor := p.position == 1,
        facing_bet := facing_raise,
        bet_amount := if facing_raise then some (g.current_bet - p.current_bet) else none,
        street := phase }

/-- The VPIP bookkeeping of `SimulationGame.betting_round`: a preflop call
or raise marks the acting player as having voluntarily put money in. -/
def simTrackVpip (phase : String) (g : SimGame) (i : Nat) (action : String) : SimGame :=
  if phase = preflopStreet ∧ (action = "call" ∨ action = "raise") then
    let p := g.players.getD i dfltSimPlayer
    { g with players := g.players.set i { p with played_voluntarily := true } }
  else g

/-- The `while True` loop of `SimulationGame.betting_round`. -/
def simBettingLoop (phase : String) :
    Nat → SimGame → List Nat → Nat → Option Nat → Except String (SimGame × Bool)
  | 0, _, _, _, _ => .error errFuel
  | fuel + 1, g, order, action_count, last_raiser =>
    let i := order.getD (action_count % order.length) 0
    let p := g.players.getD i dfltSimPlayer
    if p.is_all_in then
      if action_count + 1 > order.length * 20 then .ok (simCollectBets g, true)
      else simBettingLoop phase fuel g order (action_count + 1) last_raiser
    else
      let all_matched := g.players.all fun q =>
        decide (q.current_bet = g.current_bet) || !q.is_active || q.is_all_in
      let raiser_acted := match last_raiser with
        | none => true
        | some j => decide (action_count ≥ order.length + order.indexOf j)
      if all_matched && decide (action_count ≥ order.length) && raiser_acted then
        .ok (simCollectBets g, true)
      else if (g.players.filter fun q => q.is_active && !q.is_all_in).length = 0 then
        .ok (simCollectBets g, true)
      else
        let d := simDecideAction phase g p
        let g := simTrackVpip phase g i d.1
        match simExecAction g i last_raiser d.1 d.2 with
        | .fold g => .ok (g, false)
        | .cont g last_raiser =>
          if action_count + 1 > 100 then .error errOverrun
          else simBettingLoop phase fuel g order (action_count + 1) last_raiser

/-- `SimulationGame.betting_round`. -/
def simBettingRound (phase : String) (g : SimGame) : Except String (SimGame × Bool) :=
  let g := if phase ≠ preflopStreet then
      { g with current_bet := 0,
               players := g.players.map fun p => { p with current_bet := 0 } }
    else g
  let elig := (List.range g.players.length).filter fun i =>
    (g.players.getD i dfltSimPlayer).is_active && !(g.players.getD i dfltSimPlayer).is_all_in
  let order := simOrderByPosition g.players (phase = preflopStreet) elig
  if order.length ≤ 1 then .ok (g, true)
  else simBettingLoop phase bettingFuel g order 0 none

/-- The hand-evaluation loop of `SimulationGame.showdown`. -/
def simShowdownLoop (g : SimGame) :
    List Nat → Option (Nat × Nat × List Nat) → Except String (Nat × Nat × List Nat)
  | [], best =>
    match best with
    | some b => .ok b
    | none => .error errNoSuchPlayer
  | i :: rest, best => do
    let p := g.players.getD i dfltSimPlayer
    let r ← rank_hand (p.hole_cards ++ g.board) (some p.hole_cards)
    let s := (r.score, r.tiebreakers)
    let best := match best with
      | none => some (i, s)
      | some (j, bs) => if pair_gt s bs then some (i, s) else some (j, bs)
    simShowdownLoop g rest best

/-- `SimulationGame.showdown`. -/
def simShowdown (g : SimGame) : Except String (SimGame × Nat × String) := do
  let g := { g with game_phase := showdownPhase }
  let active := (List.range g.players.length).filter fun i =>
    (g.players.getD i dfltSimPlayer).is_active
  if active.length = 1 then
    .ok (g, active.getD 0 0, opponentFolded)
  else do
    let (w, s) ← simShowdownLoop g active none
    .ok (g, w, handName s.1)

def simCountActive (g : SimGame) : Nat := (g.players.filter fun p => p.is_active).length

/-- Fold-ending return of `SimulationGame.play_hand`: the result tuple
carries `went_to_showdown = False`. -/
def simFoldReturn (g : SimGame) : Except String (SimGame × List PyVal) :=
  match g.players.findIdx? (fun p => p.is_active) with
  | none => .error errNoSuchPlayer
  | some w =>
    let amount_won := g.pot
    .ok (simAwardPot w g,
         [.player w, .num amount_won, .str opponentFolded, .bool false])

/-- Showdown step of `SimulationGame.play_hand`: the result tuple carries
`went_to_showdown = True`. -/
def simPlayShowdown (g : SimGame) : Except String (SimGame × List PyVal) := do
  let (g, w, desc) ← simShowdown g
  let amount_won := g.pot
  .ok (simAwardPot w g, [.player w, .num amount_won, .str desc, .bool true])

/-- River step of `SimulationGame.play_hand`. -/
def simPlayRiver (both_all_in : Bool) (g : SimGame) :
    Except String (SimGame × List PyVal) :=
  if simCountActive g > 1 then do
    let g ← simDealRiver g
    if both_all_in then simPlayShowdown g
    else do
      let s ← simBettingRound riverStreet g
      if s.2 then simPlayShowdown s.1 else simFoldReturn s.1
  else simPlayShowdown g

/-- Turn step of `SimulationGame.play_hand`. -/
def simPlayTurn (both_all_in : Bool) (g : SimGame) :
    Except String (SimGame × List PyVal) :=
  if simCountActive g > 1 then do
    let g ← simDealTurn g
    if both_all_in then simPlayRiver both_all_in g
    else do
      let s ← simBettingRound turnStreet g
      if s.2 then simPlayRiver both_all_in s.1 else simFoldReturn s.1
  else simPlayRiver both_all_in g

/-- Flop step of `SimulationGame.play_hand`. -/
def simPlayFlop (both_all_in : Bool) (g : SimGame) :
    Except String (SimGame × List PyVal) :=
  if simCountActive g > 1 then do
    let g ← simDealFlop g
    if both_all_in then simPlayTurn both_all_in g
    else do
      let s ← simBettingRound flopStreet g
      if s.2 then simPlayTurn both_all_in s.1 else simFoldReturn s.1
  else simPlayTurn both_all_in g

/-- `SimulationGame.play_hand`: like the game engine's, but the result tuple
is `(winner, amount_won, description, went_to_showdown)`. -/
def simPlayHand (shuffled : List Card) (g : SimGame) :
    Except String (SimGame × List PyVal) := do
  let g := simReset shuffled g
  let g ← simPostBlinds g
  let g ← simDealHoleCards g
  let s ← simBettingRound preflopStreet g
  if s.2 then
    let g := s.1
    let both_all_in := g.players.all fun p => p.is_all_in || !p.is_active
    simPlayFlop both_all_in g
  else simFoldReturn s.1

/-- A seven-card example input (a wheel plus two high cards). -/
def exSeven : List Card :=
  [⟨.ace, .hearts⟩, ⟨.two, .spades⟩, ⟨.three, .diamonds⟩, ⟨.four, .clubs⟩,
   ⟨.five, .hearts⟩, ⟨.king, .spades⟩, ⟨.queen, .hearts⟩]

/-- A heads-up state whose two hands tie exactly: both players play the
6-high straight sitting entirely on the board. -/
def c1TieGame : PokerGame :=
  { small_blind := 5, big_blind := 10, deck := [],
    players :=
      [{ name := "A", stack := 1000, position := 0,
         hole_cards := [⟨.ace, .hearts⟩, ⟨.king, .diamonds⟩] },
       { name := "B", stack := 1000, position := 1,
         hole_cards := [⟨.queen, .hearts⟩, ⟨.jack, .diamonds⟩] }],
    board := [⟨.two, .spades⟩, ⟨.three, .hearts⟩, ⟨.four, .diamonds⟩,
      ⟨.five, .clubs⟩, ⟨.six, .spades⟩],
    pot := 100, current_bet := 0, game_phase := riverStreet }

def c1PlayerA : Player :=
  { name := "A", stack := 1000, position := 0,
    hole_cards := [⟨.ace, .hearts⟩, ⟨.king, .diamonds⟩] }

def c1PlayerB : Player :=
  { name := "B", stack := 1000, position := 1,
    hole_cards := [⟨.seven, .hearts⟩, ⟨.eight, .diamonds⟩] }

/-- A heads-up state with a strict winner: player 1 holds the 8-high
straight against player 0's board-played 6-high straight. -/
def c1WinGame : PokerGame :=
  { small_blind := 5, big_blind := 10, deck := [],
    players := [c1PlayerA, c1PlayerB],
    board := [⟨.two, .spades⟩, ⟨.three, .hearts⟩, ⟨.four, .diamonds⟩,
      ⟨.five, .clubs⟩, ⟨.six, .spades⟩],
    pot := 100, current_bet := 0, game_phase := riverStreet }

/-- The total of the players' stacks. -/
def sumStacks (g : PokerGame) : ℚ := (g.players.map Player.stack).sum

/-- The conserved chip quantity: stacks plus pot. -/
def chips (g : PokerGame) : ℚ := sumStacks g + g.pot

/-- The game state carried by either constructor of `ActOut`. -/
def ActOut.game : ActOut → PokerGame
  | .fold g => g
  | .cont g _ => g

/-- A policy pair that always folds. -/
def foldBrains : Brains :=
  ⟨fun _ => ("fold", 0), fun _ => ("fold", 0)⟩

/-- A fresh heads-up table: blinds 5/10, both stacks 1000. -/
def c6Game : PokerGame :=
  { small_blind := 5, big_blind := 10, deck := [],
    players := [{ name := "A", stack := 1000, position := 0 },
                { name := "B", stack := 1000, position := 1 }],
    board := [], pot := 0, current_bet := 0, game_phase := preflopStreet }

/-- A four-card deck, enough for one preflop fold hand. -/
def c6Deck : List Card :=
  [⟨.two, .spades⟩, ⟨.three, .hearts⟩, ⟨.four, .diamonds⟩, ⟨.five, .clubs⟩]

/-- The game state carried by either constructor of `SimActOut`. -/
def SimActOut.game : SimActOut → SimGame
  | .fold g => g
  | .cont g _ => g

/-! ### Helper lemmas: the sorted distinct board ranks -/

/-- The distinct board ranks sorted descending, as computed by
`classify_pair_strength`. -/
def sortedDescRanks (board : List Card) : List Nat :=
  List.insertionSort natDesc (rank_values board).dedup

theorem sortedDescRanks_def (board : List Card) :
    sortedDescRanks board = List.insertionSort natDesc (rank_values board).dedup := rfl

theorem sortedDescRanks_sorted (board : List Card) :
    List.Pairwise (fun a b : Nat => b ≤ a) (sortedDescRanks board) :=
  List.sorted_insertionSort natDesc _

theorem sortedDescRanks_nodup (board : List Card) : (sortedDescRanks board).Nodup :=
  (List.perm_insertionSort natDesc _).nodup_iff.2 (List.nodup_dedup _)

theorem mem_sortedDescRanks {a : Nat} {board : List Card} :
    a ∈ sortedDescRanks board ↔ a ∈ rank_values board := by
  rw [sortedDescRanks_def, (List.perm_insertionSort natDesc _).mem_iff, List.mem_dedup]

theorem sortedDescRanks_ne_nil {board : List Card} (h : board ≠ []) :
    sortedDescRanks board ≠ [] := by
  intro hnil
  apply h
  have hm : rank_values board = [] := by
    by_contra hb
    obtain ⟨x, hx⟩ := List.exists_mem_of_ne_nil _ hb
    have : x ∈ sortedDescRanks board := mem_sortedDescRanks.2 hx
    simp [hnil] at this
  cases board with
  | nil => rfl
  | cons c cs => simp [rank_values] at hm

/-- In a list sorted descending, a member strictly larger than the entry at
index `k` must sit at an index before `k`. -/
theorem mem_sorted_desc_before {B : List Nat}
    (hs : List.Pairwise (fun a b : Nat => b ≤ a) B) {x : Nat} (hx : x ∈ B)
    {k : Nat} (hk : k < B.length) (hgt : x > B.getD k 0) :
    ∃ i, ∃ _ : i < k, B.getD i 0 = x := by
  obtain ⟨i, hi, hget⟩ := List.mem_iff_getElem.1 hx
  rcases lt_or_ge i k with hik | hik
  · exact ⟨i, hik, by rw [List.getD_eq_getElem _ _ hi, hget]⟩
  · exfalso
    rcases eq_or_lt_of_le hik with hik | hik
    · subst hik
      rw [List.getD_eq_getElem _ _ hi, hget] at hgt
      omega
    · have := (List.pairwise_iff_getElem.1 hs) k i hk hi hik
      rw [hget] at this
      rw [List.getD_eq_getElem _ _ hk] at hgt
      omega

/-- The entry at a valid index of the sorted distinct board ranks is one of
the board's rank values. -/
theorem sortedDescRanks_getD_mem {board : List Card} {k : Nat}
    (hk : k < (sortedDescRanks board).length) :
    (sortedDescRanks board).getD k 0 ∈ rank_values board := by
  rw [List.getD_eq_getElem _ _ hk]
  exact mem_sortedDescRanks.1 (List.getElem_mem hk)

/-- The branch structure of `classify_pair_strength` on a pocket pair. -/
theorem classify_pair_strength_pocket (c1 c2 : Card) (board : List Card)
    (hne : board ≠ []) (hpair : c1.get_rank_value = c2.get_rank_value) :
    classify_pair_strength (c1, c2) board =
      (let B := sortedDescRanks board
       let pr := c1.get_rank_value
       if pr > B.getD 0 0 then "overpair"
       else if B.length > 1 ∧ B.getD 0 0 > pr ∧ pr > B.getD 1 0 then "second_pair"
       else if B.length > 2 ∧ B.getD 1 0 > pr ∧ pr > B.getD 2 0 then "third_pair"
       else "underpair") := by
  unfold classify_pair_strength
  rw [if_neg hne, if_pos hpair]
  rfl

/-- C9: on a pocket pair against a non-empty board, `classify_pair_strength`
compares the pair rank with the distinct board ranks sorted descending:
above the highest gives `overpair`, strictly between the first and second
gives `second_pair`, strictly between the second and third gives
`third_pair`, and below all distinct board ranks gives `underpair`. -/
theorem C9_pocket_pair_classification (c1 c2 : Card) (board : List Card)
    (hne : board ≠ []) (hpair : c1.get_rank_value = c2.get_rank_value) :
    (c1.get_rank_value > (sortedDescRanks board).getD 0 0 →
      classify_pair_strength (c1, c2) board = "overpair") ∧
    ((sortedDescRanks board).length > 1 →
      (sortedDescRanks board).getD 0 0 > c1.get_rank_value →
      c1.get_rank_value > (sortedDescRanks board).getD 1 0 →
      classify_pair_strength (c1, c2) board = "second_pair") ∧
    ((sortedDescRanks board).length > 2 →
      (sortedDescRanks board).getD 1 0 > c1.get_rank_value →
      c1.get_rank_value > (sortedDescRanks board).getD 2 0 →
      classify_pair_strength (c1, c2) board = "third_pair") ∧
    ((∀ r ∈ rank_values board, c1.get_rank_value < r) →
      classify_pair_strength (c1, c2) board = "underpair") := by
  rw [classify_pair_strength_pocket c1 c2 board hne hpair]
  simp only []
  have hsorted := sortedDescRanks_sorted board
  refine ⟨fun h0 => if_pos h0, fun hlen h0 h1 => ?_, fun hlen h1 h2 => ?_, fun hall => ?_⟩
  · rw [if_neg (by omega), if_pos ⟨hlen, h0, h1⟩]
  · have h10 : (sortedDescRanks board).getD 1 0 ≤ (sortedDescRanks board).getD 0 0 := by
      have := (List.pairwise_iff_getElem.1 hsorted) 0 1 (by omega) (by omega) (by omega)
      rw [List.getD_eq_getElem _ _ (show 1 < _ by omega),
          List.getD_eq_getElem _ _ (show 0 < _ by omega)]
      exact this
    rw [if_neg (by omega), if_neg (by omega), if_pos ⟨hlen, h1, h2⟩]
  · have hB : sortedDescRanks board ≠ [] := sortedDescRanks_ne_nil hne
    have hlen0 : 0 < (sortedDescRanks board).length := List.length_pos.2 hB
    have hm0 := hall _ (sortedDescRanks_getD_mem hlen0)
    rw [if_neg (by omega)]
    by_cases hlen1 : 1 < (sortedDescRanks board).length
    · have hm1 := hall _ (sortedDescRanks_getD_mem hlen1)
      rw [if_neg (by omega)]
      by_cases hlen2 : 2 < (sortedDescRanks board).length
      · have hm2 := hall _ (sortedDescRanks_getD_mem hlen2)
        rw [if_neg (by omega)]
      · rw [if_neg (by omega)]
    · rw [if_neg (by omega), if_neg (by omega)]

/-- C9 witness: pocket kings on an A-7-2 board are classified `second_pair`. -/
theorem C9_pocket_pair_classification_witness :
    ([(⟨.ace, .spades⟩ : Card), ⟨.seven, .hearts⟩, ⟨.two, .diamonds⟩] ≠ ([] : List Card)) ∧
    (Card.get_rank_value ⟨.king, .spades⟩ = Card.get_rank_value ⟨.king, .hearts⟩) ∧
    classify_pair_strength (⟨.king, .spades⟩, ⟨.king, .hearts⟩)
      [⟨.ace, .spades⟩, ⟨.seven, .hearts⟩, ⟨.two, .diamonds⟩] = "second_pair" :=
  ⟨by decide, by decide,
    (C9_pocket_pair_classification ⟨.king, .spades⟩ ⟨.king, .hearts⟩
      [⟨.ace, .spades⟩, ⟨.seven, .hearts⟩, ⟨.two, .diamonds⟩]
      (by decide) (by decide)).2.1 (by decide) (by decide) (by decide)⟩

/-- C10: a pocket pair whose rank equals one of the board ranks (in
particular one of the distinct board ranks, even the highest) is classified
`underpair`: equality never yields any of the pair tiers. -/
theorem C10_pocket_pair_equal_board_rank (c1 c2 : Card) (board : List Card)
    (hpair : c1.get_rank_value = c2.get_rank_value)
    (hmem : c1.get_rank_value ∈ rank_values board) :
    classify_pair_strength (c1, c2) board = "underpair" := by
  have hne : board ≠ [] := by
    intro h
    subst h
    simp [rank_values] at hmem
  rw [classify_pair_strength_pocket c1 c2 board hne hpair]
  simp only []
  have hsorted := sortedDescRanks_sorted board
  have hmemB : c1.get_rank_value ∈ sortedDescRanks board := mem_sortedDescRanks.2 hmem
  have hlen0 : 0 < (sortedDescRanks board).length := List.length_pos.2 (by
    intro h
    rw [h] at hmemB
    simp at hmemB)
  rw [if_neg ?h0, if_neg ?h1, if_neg ?h2]
  case h0 =>
    intro hgt
    obtain ⟨i, hi, _⟩ := mem_sorted_desc_before hsorted hmemB hlen0 hgt
    omega
  case h1 =>
    rintro ⟨hlen, h0, h1⟩
    obtain ⟨i, hi, hieq⟩ := mem_sorted_desc_before hsorted hmemB (by omega) h1
    have : i = 0 := by omega
    subst this
    omega
  case h2 =>
    rintro ⟨hlen, h1, h2⟩
    obtain ⟨i, hi, hieq⟩ := mem_sorted_desc_before hsorted hmemB (by omega) h2
    have h10 : (sortedDescRanks board).getD 1 0 ≤ (sortedDescRanks board).getD 0 0 := by
      have := (List.pairwise_iff_getElem.1 hsorted) 0 1 (by omega) (by omega) (by omega)
      rw [List.getD_eq_getElem _ _ (show 1 < _ by omega),
          List.getD_eq_getElem _ _ (show 0 < _ by omega)]
      exact this
    interval_cases i <;> omega

/-- C10 witness: pocket aces on an A-7-2 board are classified `underpair`. -/
theorem C10_pocket_pair_equal_board_rank_witness :
    (Card.get_rank_value ⟨.ace, .spades⟩ = Card.get_rank_value ⟨.ace, .hearts⟩) ∧
    Card.get_rank_value (⟨.ace, .spades⟩ : Card) ∈
      rank_values [⟨.ace, .diamonds⟩, ⟨.seven, .hearts⟩, ⟨.two, .spades⟩] ∧
    classify_pair_strength (⟨.ace, .spades⟩, ⟨.ace, .hearts⟩)
      [⟨.ace, .diamonds⟩, ⟨.seven, .hearts⟩, ⟨.two, .spades⟩] = "underpair" :=
  ⟨by decide, by decide,
    C10_pocket_pair_equal_board_rank ⟨.ace, .spades⟩ ⟨.ace, .hearts⟩
      [⟨.ace, .diamonds⟩, ⟨.seven, .hearts⟩, ⟨.two, .spades⟩] (by decide) (by decide)⟩

/-! ### Helper lemmas: list update and sums -/

theorem getD_set_self {α : Type} (l : List α) (i : Nat) (a d : α)
    (h : i < l.length) : (l.set i a).getD i d = a := by
  rw [List.getD_eq_getElem _ _ (by simpa using h)]
  exact List.getElem_set_self _

/-- Characterisation of `Player.bet`: the additional chips moved are the
requested increment clamped by the stack. -/
theorem Player.bet_spec (p : Player) (amount : ℚ) :
    ((p.bet amount).1.stack = p.stack - min (amount - p.current_bet) p.stack) ∧
    ((p.bet amount).1.current_bet = p.current_bet + min (amount - p.current_bet) p.stack) ∧
    ((p.bet amount).2 = p.current_bet + min (amount - p.current_bet) p.stack) ∧
    ((p.bet amount).1.total_invested =
      p.total_invested + min (amount - p.current_bet) p.stack) ∧
    ((p.bet amount).1.is_active = p.is_active) ∧
    ((p.bet amount).1.position = p.position) ∧
    ((p.bet amount).1.name = p.name) ∧
    ((p.bet amount).1.hole_cards = p.hole_cards) := by
  unfold Player.bet
  dsimp only
  split <;> simp

/-! ### C8: raise execution -/

/-- C8: executing a `raise` in the betting round bets to the larger of the
policy's requested size and twice the street's bet-to-match; the chips
actually committed are that increment clamped by the acting player's stack;
the player's resulting committed bet becomes the new bet-to-match; and the
acting player is recorded as the last raiser. -/
theorem C8_raise_execution (g : PokerGame) (i : Nat) (last_raiser : Option Nat)
    (bet_size : ℚ) (hi : i < g.players.length) :
    ∃ g' : PokerGame,
      execAction g i last_raiser "raise" bet_size = .cont g' (some i) ∧
      (let p := g.players.getD i dfltPlayer
       let target := max bet_size (g.current_bet * 2)
       let committed := min (target - p.current_bet) p.stack
       g'.current_bet = p.current_bet + committed ∧
       (g'.players.getD i dfltPlayer).current_bet = p.current_bet + committed ∧
       (g'.players.getD i dfltPlayer).stack = p.stack - committed ∧
       committed ≤ p.stack ∧
       g'.pot = g.pot + committed ∧
       g'.players = g.players.set i ((p.bet target).1)) := by
  refine ⟨_, rfl, ?_⟩
  obtain ⟨hst, hcb, hret, _, _, _, _, _⟩ :=
    Player.bet_spec (g.players.getD i dfltPlayer) (max bet_size (g.current_bet * 2))
  dsimp only [execAction]
  refine ⟨by rw [hret], ?_, ?_, min_le_right _ _, by rw [hret]; ring, rfl⟩
  · rw [getD_set_self _ _ _ _ hi, hcb]
  · rw [getD_set_self _ _ _ _ hi, hst]

/-- C8 witness: a concrete raise (stack 100, bet-to-match 10, requested 15)
bets to 20, commits 20, and records the raiser. -/
theorem C8_raise_execution_witness :
    (0 : Nat) < 2 ∧
    ∃ g' : PokerGame,
      execAction
        { small_blind := 5, big_blind := 10, deck := [], board := [], pot := 15,
          current_bet := 10,
          game_phase := preflopStreet,
          players := [{ name := "A", stack := 100, position := 0 },
                      { name := "B", stack := 100, position := 1 }] }
        0 none "raise" 15 = .cont g' (some 0) ∧
      (let p := ({ name := "A", stack := 100, position := 0 } : Player)
       let target := max (15 : ℚ) ((10 : ℚ) * 2)
       let committed := min (target - p.current_bet) p.stack
       g'.current_bet = p.current_bet + committed ∧
       (g'.players.getD 0 dfltPlayer).current_bet = p.current_bet + committed ∧
       (g'.players.getD 0 dfltPlayer).stack = p.stack - committed ∧
       committed ≤ p.stack ∧
       g'.pot = 15 + committed ∧
       g'.players = [{ name := "A", stack := 100, position := 0 },
                     { name := "B", stack := 100, position := 1 }].set 0 ((p.bet target).1)) :=
  ⟨by decide,
    C8_raise_execution
      { small_blind := 5, big_blind := 10, deck := [], board := [], pot := 15,
        current_bet := 10, game_phase := preflopStreet,
        players := [{ name := "A", stack := 100, position := 0 },
                    { name := "B", stack := 100, position := 1 }] }
      0 none 15 (by decide)⟩

/-! ### Helper lemmas: the classification chain -/

/-- Every branch of the classification chain returns a category in 1..10. -/
theorem classify_best_hand_score_bound (b : List Card) (h : Option (List Card))
    (a : List Card) (bc hcp : Option Bool) :
    1 ≤ (classify_best_hand b h a bc hcp).score ∧
      (classify_best_hand b h a bc hcp).score ≤ 10 := by
  unfold classify_best_hand
  repeat' split
  all_goals simp

/-- Category 5 is only produced by the straight branch. -/
theorem classify_best_hand_score_five (b : List Card) (h : Option (List Card))
    (a : List Card) (bc hcp : Option Bool)
    (h5 : (classify_best_hand b h a bc hcp).score = 5) : is_straight b ≠ 0 := by
  unfold classify_best_hand at h5
  repeat' split at h5
  all_goals simp_all

/-- The duplicate check of `rank_hand` (`len(set(cards)) != len(cards)`)
detects exactly non-`Nodup` inputs. -/
theorem dedup_length_eq_iff {α : Type} [DecidableEq α] (l : List α) :
    l.dedup.length = l.length ↔ l.Nodup := by
  constructor
  · intro h
    have := List.Sublist.eq_of_length (List.dedup_sublist l) h
    rw [← this]
    exact List.nodup_dedup l
  · intro h
    rw [List.dedup_eq_self.2 h]

/-- A list whose `dedup` has a single element has all elements equal. -/
theorem dedup_length_one_all_eq {α : Type} [DecidableEq α] {l : List α}
    (h : l.dedup.length = 1) : ∀ x ∈ l, ∀ y ∈ l, x = y := by
  obtain ⟨a, ha⟩ := List.length_eq_one.1 h
  intro x hx y hy
  have hx2 : x ∈ l.dedup := List.mem_dedup.2 hx
  have hy2 : y ∈ l.dedup := List.mem_dedup.2 hy
  rw [ha] at hx2 hy2
  simp at hx2 hy2
  rw [hx2, hy2]

/-! ### C7: evaluator error conditions -/

/-- C7 (amended): `rank_hand` fails exactly when the input has fewer than 5
cards, contains a duplicate, or hole cards are supplied that are not exactly
two or not a subset of the cards; on every other input it returns a category
in 1..10.  (The claim as stated omits the exactly-two condition.) -/
theorem C7_amended_error_conditions (cards : List Card) (hole : Option (List Card)) :
    ((∃ e, rank_hand cards hole = .error e) ↔
      (cards.length < 5 ∨ ¬ cards.Nodup ∨
        match hole with
        | none => False
        | some hc => hc.length ≠ 2 ∨ ¬ ∀ c ∈ hc, c ∈ cards)) ∧
    (∀ r, rank_hand cards hole = .ok r → 1 ≤ r.score ∧ r.score ≤ 10) := by
  unfold rank_hand
  by_cases h1 : cards = []
  · subst h1
    simp
  rw [if_neg h1]
  by_cases h2 : cards.length < 5
  · rw [if_pos h2]
    cases hole <;> simp [h2]
  rw [if_neg h2]
  by_cases h3 : cards.dedup.length ≠ cards.length
  · rw [if_pos h3]
    have : ¬ cards.Nodup := fun hn => h3 ((dedup_length_eq_iff cards).2 hn)
    cases hole <;> simp [this]
  rw [if_neg h3]
  have hnodup : cards.Nodup := (dedup_length_eq_iff cards).1 (by omega)
  cases hole with
  | none =>
    dsimp only
    refine ⟨by simp [h2, hnodup], ?_⟩
    rintro r hr
    rw [Except.ok.injEq] at hr
    rw [← hr]
    exact classify_best_hand_score_bound _ _ _ _ _
  | some hc =>
    dsimp only
    by_cases h4 : hc.length ≠ 2
    · rw [if_pos h4]
      simp [h4]
    rw [if_neg h4]
    by_cases h5 : ¬ (hc.all fun c => decide (c ∈ cards)) = true
    · rw [if_pos h5]
      have : ¬ ∀ c ∈ hc, c ∈ cards := by
        simpa using h5
      simp [this]
    rw [if_neg h5]
    have hsub : ∀ c ∈ hc, c ∈ cards := by
      simpa using h5
    constructor
    · constructor
      · rintro ⟨e, he⟩
        split at he
        · split at he <;> exact Except.noConfusion he
        · exact Except.noConfusion he
      · intro hcon
        rcases hcon with hcon | hcon | hcon
        · omega
        · exact absurd hnodup hcon
        · rcases hcon with hcon | hcon
          · exact absurd hcon h4
          · exact absurd hsub hcon
    · rintro r hr
      split at hr
      · split at hr
        all_goals rw [Except.ok.injEq] at hr
        all_goals rw [← hr]
        all_goals exact classify_best_hand_score_bound _ _ _ _ _
      · rw [Except.ok.injEq] at hr
        rw [← hr]
        exact classify_best_hand_score_bound _ _ _ _ _

/-- C7 counterexample: five unique cards with three supplied hole cards that
are all among the cards satisfy none of the claim's failure conditions, yet
the evaluator fails (the source also rejects hole-card lists that are not
exactly two). -/
theorem C7_counterexample_three_hole_cards :
    (∃ e, rank_hand
      [(⟨.two, .spades⟩ : Card), ⟨.three, .spades⟩, ⟨.four, .spades⟩,
        ⟨.five, .spades⟩, ⟨.seven, .spades⟩]
      (some [⟨.two, .spades⟩, ⟨.three, .spades⟩, ⟨.four, .spades⟩]) = .error e) ∧
    ¬ (([(⟨.two, .spades⟩ : Card), ⟨.three, .spades⟩, ⟨.four, .spades⟩,
        ⟨.five, .spades⟩, ⟨.seven, .spades⟩] : List Card).length < 5) ∧
    ([(⟨.two, .spades⟩ : Card), ⟨.three, .spades⟩, ⟨.four, .spades⟩,
        ⟨.five, .spades⟩, ⟨.seven, .spades⟩] : List Card).Nodup ∧
    (∀ c ∈ [(⟨.two, .spades⟩ : Card), ⟨.three, .spades⟩, ⟨.four, .spades⟩],
      c ∈ [(⟨.two, .spades⟩ : Card), ⟨.three, .spades⟩, ⟨.four, .spades⟩,
        ⟨.five, .spades⟩, ⟨.seven, .spades⟩]) :=
  ⟨⟨errHoleCount, rfl⟩, by decide, by decide, by decide⟩

/-- C7 witness: the empty input fails, and the suited wheel returns normally
with category 9 ∈ 1..10. -/
theorem C7_amended_error_conditions_witness :
    (∃ e, rank_hand ([] : List Card) none = .error e) ∧
    (1 ≤ (RankResult.mk 9 [5] none none none).score ∧
      (RankResult.mk 9 [5] none none none).score ≤ 10) :=
  ⟨(C7_amended_error_conditions [] none).1.2 (Or.inl (by decide)),
    (C7_amended_error_conditions
      [(⟨.ace, .hearts⟩ : Card), ⟨.two, .hearts⟩, ⟨.three, .hearts⟩,
        ⟨.four, .hearts⟩, ⟨.five, .hearts⟩] none).2 _ rfl⟩

/-! ### C4: the wheel and near-straight properties -/

/-- The mixed-suit wheel evaluates to a plain straight with high card 5. -/
theorem wheel_mixed_suits (s1 s2 s3 s4 s5 : Suit)
    (hne : ¬ (s1 = s2 ∧ s2 = s3 ∧ s3 = s4 ∧ s4 = s5)) :
    rank_hand [⟨.ace, s1⟩, ⟨.two, s2⟩, ⟨.three, s3⟩, ⟨.four, s4⟩, ⟨.five, s5⟩] none =
      .ok ⟨5, [5], none, none, none⟩ := by
  have hbest : rank_hand
      [⟨.ace, s1⟩, ⟨.two, s2⟩, ⟨.three, s3⟩, ⟨.four, s4⟩, ⟨.five, s5⟩] none =
      .ok (classify_best_hand
        [⟨.ace, s1⟩, ⟨.five, s5⟩, ⟨.four, s4⟩, ⟨.three, s3⟩, ⟨.two, s2⟩] none
        [⟨.ace, s1⟩, ⟨.two, s2⟩, ⟨.three, s3⟩, ⟨.four, s4⟩, ⟨.five, s5⟩] none none) := rfl
  rw [hbest]
  have hfl : is_flush
      [(⟨.ace, s1⟩ : Card), ⟨.five, s5⟩, ⟨.four, s4⟩, ⟨.three, s3⟩, ⟨.two, s2⟩] = [] := by
    unfold is_flush
    rw [if_neg (by simp), if_pos]
    intro h
    have hall := dedup_length_one_all_eq h
    exact hne ⟨hall s1 (by simp) s2 (by simp), hall s2 (by simp) s3 (by simp),
      hall s3 (by simp) s4 (by simp), hall s4 (by simp) s5 (by simp)⟩
  have hrf : is_royal_flush
      [(⟨.ace, s1⟩ : Card), ⟨.five, s5⟩, ⟨.four, s4⟩, ⟨.three, s3⟩, ⟨.two, s2⟩] = false := by
    unfold is_royal_flush
    rw [if_neg (by simp), if_pos (by rw [hfl]; rfl)]
  have hsf : is_straight_flush
      [(⟨.ace, s1⟩ : Card), ⟨.five, s5⟩, ⟨.four, s4⟩, ⟨.three, s3⟩, ⟨.two, s2⟩] = 0 := by
    unfold is_straight_flush
    rw [if_neg (by simp), if_pos (by rw [hfl]; rfl)]
  have hq : is_quads
      [(⟨.ace, s1⟩ : Card), ⟨.five, s5⟩, ⟨.four, s4⟩, ⟨.three, s3⟩, ⟨.two, s2⟩] = [] := rfl
  have hb : is_boat
      [(⟨.ace, s1⟩ : Card), ⟨.five, s5⟩, ⟨.four, s4⟩, ⟨.three, s3⟩, ⟨.two, s2⟩] = [] := rfl
  have hstr : is_straight
      [(⟨.ace, s1⟩ : Card), ⟨.five, s5⟩, ⟨.four, s4⟩, ⟨.three, s3⟩, ⟨.two, s2⟩] = 5 := rfl
  simp [classify_best_hand, hfl, hrf, hsf, hq, hb, hstr]

set_option maxHeartbeats 1000000 in
/-- The mixed-suit A-K-Q-J-9 evaluates to plain high card A-K-Q-J-9. -/
theorem akqj9_mixed_suits (s1 s2 s3 s4 s5 : Suit)
    (hne : ¬ (s1 = s2 ∧ s2 = s3 ∧ s3 = s4 ∧ s4 = s5)) :
    rank_hand [⟨.ace, s1⟩, ⟨.king, s2⟩, ⟨.queen, s3⟩, ⟨.jack, s4⟩, ⟨.nine, s5⟩] none =
      .ok ⟨1, [14, 13, 12, 11, 9], none, none, none⟩ := by
  have hbest : rank_hand
      [⟨.ace, s1⟩, ⟨.king, s2⟩, ⟨.queen, s3⟩, ⟨.jack, s4⟩, ⟨.nine, s5⟩] none =
      .ok (classify_best_hand
        [⟨.ace, s1⟩, ⟨.king, s2⟩, ⟨.queen, s3⟩, ⟨.jack, s4⟩, ⟨.nine, s5⟩] none
        [⟨.ace, s1⟩, ⟨.king, s2⟩, ⟨.queen, s3⟩, ⟨.jack, s4⟩, ⟨.nine, s5⟩] none none) := rfl
  rw [hbest]
  have hfl : is_flush
      [(⟨.ace, s1⟩ : Card), ⟨.king, s2⟩, ⟨.queen, s3⟩, ⟨.jack, s4⟩, ⟨.nine, s5⟩] = [] := by
    unfold is_flush
    rw [if_neg (by simp), if_pos]
    intro h
    have hall := dedup_length_one_all_eq h
    exact hne ⟨hall s1 (by simp) s2 (by simp), hall s2 (by simp) s3 (by simp),
      hall s3 (by simp) s4 (by simp), hall s4 (by simp) s5 (by simp)⟩
  have hrf : is_royal_flush
      [(⟨.ace, s1⟩ : Card), ⟨.king, s2⟩, ⟨.queen, s3⟩, ⟨.jack, s4⟩, ⟨.nine, s5⟩] = false := by
    unfold is_royal_flush
    rw [if_neg (by simp), if_pos (by rw [hfl]; rfl)]
  have hsf : is_straight_flush
      [(⟨.ace, s1⟩ : Card), ⟨.king, s2⟩, ⟨.queen, s3⟩, ⟨.jack, s4⟩, ⟨.nine, s5⟩] = 0 := by
    unfold is_straight_flush
    rw [if_neg (by simp), if_pos (by rw [hfl]; rfl)]
  have hq : is_quads
      [(⟨.ace, s1⟩ : Card), ⟨.king, s2⟩, ⟨.queen, s3⟩, ⟨.jack, s4⟩, ⟨.nine, s5⟩] = [] := rfl
  have hb : is_boat
      [(⟨.ace, s1⟩ : Card), ⟨.king, s2⟩, ⟨.queen, s3⟩, ⟨.jack, s4⟩, ⟨.nine, s5⟩] = [] := rfl
  have hstr : is_straight
      [(⟨.ace, s1⟩ : Card), ⟨.king, s2⟩, ⟨.queen, s3⟩, ⟨.jack, s4⟩, ⟨.nine, s5⟩] = 0 := rfl
  have htr : is_trips
      [(⟨.ace, s1⟩ : Card), ⟨.king, s2⟩, ⟨.queen, s3⟩, ⟨.jack, s4⟩, ⟨.nine, s5⟩] = [] := rfl
  have htp : is_two_pair
      [(⟨.ace, s1⟩ : Card), ⟨.king, s2⟩, ⟨.queen, s3⟩, ⟨.jack, s4⟩, ⟨.nine, s5⟩] = [] := rfl
  have hop : is_one_pair
      [(⟨.ace, s1⟩ : Card), ⟨.king, s2⟩, ⟨.queen, s3⟩, ⟨.jack, s4⟩, ⟨.nine, s5⟩] = [] := rfl
  have hhc : get_high_card
      [(⟨.ace, s1⟩ : Card), ⟨.king, s2⟩, ⟨.queen, s3⟩, ⟨.jack, s4⟩, ⟨.nine, s5⟩] =
      [14, 13, 12, 11, 9] := rfl
  simp only [classify_best_hand, hfl, hrf, hsf, hq, hb, hstr, htr, htp, hop, hhc]
  simp

/-- C4: the suited wheel A-2-3-4-5 is a straight flush (category 9) with
tiebreak `[5]`; the mixed-suit wheel is a straight (category 5) with
tiebreak `[5]`, the ace counting low; A-K-Q-J-9 never evaluates to category
5, and evaluates to category 1 (high card) whenever it is not a flush (its
distinct ranks rule pairs out). -/
theorem C4_wheel_properties :
    (∀ s : Suit,
      rank_hand [⟨.ace, s⟩, ⟨.two, s⟩, ⟨.three, s⟩, ⟨.four, s⟩, ⟨.five, s⟩] none =
        .ok ⟨9, [5], none, none, none⟩) ∧
    (∀ s1 s2 s3 s4 s5 : Suit, ¬ (s1 = s2 ∧ s2 = s3 ∧ s3 = s4 ∧ s4 = s5) →
      rank_hand [⟨.ace, s1⟩, ⟨.two, s2⟩, ⟨.three, s3⟩, ⟨.four, s4⟩, ⟨.five, s5⟩] none =
        .ok ⟨5, [5], none, none, none⟩) ∧
    (∀ s1 s2 s3 s4 s5 : Suit,
      (∀ r, rank_hand
          [⟨.ace, s1⟩, ⟨.king, s2⟩, ⟨.queen, s3⟩, ⟨.jack, s4⟩, ⟨.nine, s5⟩] none = .ok r →
        r.score ≠ 5) ∧
      (¬ (s1 = s2 ∧ s2 = s3 ∧ s3 = s4 ∧ s4 = s5) →
        rank_hand
          [⟨.ace, s1⟩, ⟨.king, s2⟩, ⟨.queen, s3⟩, ⟨.jack, s4⟩, ⟨.nine, s5⟩] none =
          .ok ⟨1, [14, 13, 12, 11, 9], none, none, none⟩)) := by
  refine ⟨fun s => by cases s <;> rfl, wheel_mixed_suits, fun s1 s2 s3 s4 s5 => ⟨?_, akqj9_mixed_suits s1 s2 s3 s4 s5⟩⟩
  intro r hok h5
  have hbest : rank_hand
      [⟨.ace, s1⟩, ⟨.king, s2⟩, ⟨.queen, s3⟩, ⟨.jack, s4⟩, ⟨.nine, s5⟩] none =
      .ok (classify_best_hand
        [⟨.ace, s1⟩, ⟨.king, s2⟩, ⟨.queen, s3⟩, ⟨.jack, s4⟩, ⟨.nine, s5⟩] none
        [⟨.ace, s1⟩, ⟨.king, s2⟩, ⟨.queen, s3⟩, ⟨.jack, s4⟩, ⟨.nine, s5⟩] none none) := rfl
  rw [hbest, Except.ok.injEq] at hok
  rw [← hok] at h5
  have := classify_best_hand_score_five _ _ _ _ _ h5
  exact this rfl

/-- C4 witness: concrete mixed-suit instantiations of the conditional
parts. -/
theorem C4_wheel_properties_witness :
    (¬ ((Suit.hearts = Suit.spades ∧ Suit.spades = Suit.diamonds ∧
        Suit.diamonds = Suit.clubs ∧ Suit.clubs = Suit.hearts))) ∧
    rank_hand [⟨.ace, .hearts⟩, ⟨.two, .spades⟩, ⟨.three, .diamonds⟩,
        ⟨.four, .clubs⟩, ⟨.five, .hearts⟩] none = .ok ⟨5, [5], none, none, none⟩ ∧
    rank_hand [⟨.ace, .hearts⟩, ⟨.king, .spades⟩, ⟨.queen, .diamonds⟩,
        ⟨.jack, .clubs⟩, ⟨.nine, .hearts⟩] none =
      .ok ⟨1, [14, 13, 12, 11, 9], none, none, none⟩ :=
  ⟨by decide,
    (C4_wheel_properties.2.1 .hearts .spades .diamonds .clubs .hearts (by decide)),
    ((C4_wheel_properties.2.2 .hearts .spades .diamonds .clubs .hearts).2 (by decide))⟩

/-! ### Helper lemmas: counting and `most_common` under permutation

`Counter.most_common` orders equal multiplicities arbitrarily; these lemmas
show that every value the evaluator extracts from it is determined by the
rank multiset alone, so `_evaluate_five_cards` is invariant under
permutation of its five cards. -/

theorem sum_map_add {α : Type} (f g : α → Nat) (l : List α) :
    (l.map fun a => f a + g a).sum = (l.map f).sum + (l.map g).sum := by
  induction l with
  | nil => rfl
  | cons x l ih => simp [ih]; omega

/-- The sum of equality indicators is the count. -/
theorem sum_ite_count (x : Nat) (as : List Nat) :
    (as.map fun a => if a = x then 1 else 0).sum = as.count x := by
  induction as with
  | nil => rfl
  | cons b bs ihb =>
    rw [List.count_cons]
    simp only [List.map_cons, List.sum_cons, ihb]
    by_cases hbx : b = x
    · subst hbx
      simp [Nat.add_comm]
    · simp [hbx, Ne.symm hbx]

/-- The multiplicities of distinct values sum to at most the length. -/
theorem sum_counts_le (l : List Nat) : ∀ as : List Nat, as.Nodup →
    (as.map fun a => l.count a).sum ≤ l.length := by
  induction l with
  | nil => intro as _; simp
  | cons x l ih =>
    intro as ha
    have hmap : (as.map fun a => (x :: l).count a) =
        (as.map fun a => l.count a + if a = x then 1 else 0) := by
      apply List.map_congr_left
      intro a _
      rw [List.count_cons]
      congr 1
      rcases eq_or_ne a x with hax | hax
      · simp [hax]
      · simp [hax, Ne.symm hax]
    rw [hmap, sum_map_add, sum_ite_count]
    have h1 := ih as ha
    have h2 : as.count x ≤ 1 := List.nodup_iff_count_le_one.1 ha x
    simp only [List.length_cons]
    omega

/-- A sort by a total, transitive, antisymmetric relation is determined by
the multiset of elements. -/
theorem insertionSort_eq_of_perm {α : Type} {r : α → α → Prop} [DecidableRel r]
    [IsTotal α r] [IsTrans α r] [IsAntisymm α r] {xs ys : List α} (h : xs.Perm ys) :
    List.insertionSort r xs = List.insertionSort r ys :=
  List.eq_of_perm_of_sorted
    ((List.perm_insertionSort r xs).trans (h.trans (List.perm_insertionSort r ys).symm))
    (List.sorted_insertionSort r xs) (List.sorted_insertionSort r ys)

theorem most_common_perm {xs ys : List Nat} (h : xs.Perm ys) :
    (most_common xs).Perm (most_common ys) := by
  unfold most_common
  refine (List.perm_insertionSort cntDesc _).trans
    (List.Perm.trans ?_ (List.perm_insertionSort cntDesc _).symm)
  have hmap : ys.dedup.map (fun r => (r, ys.count r)) =
      ys.dedup.map (fun r => (r, xs.count r)) := by
    apply List.map_congr_left
    intro r _
    rw [h.count_eq]
  rw [hmap]
  exact h.dedup.map _

theorem most_common_sorted (xs : List Nat) :
    List.Pairwise cntDesc (most_common xs) :=
  List.sorted_insertionSort cntDesc _

/-- The list of multiplicities produced by `most_common` depends only on the
multiset of values. -/
theorem most_common_snd_eq {xs ys : List Nat} (h : xs.Perm ys) :
    (most_common xs).map Prod.snd = (most_common ys).map Prod.snd :=
  @List.eq_of_perm_of_sorted ℕ natDesc _ _ _ ((most_common_perm h).map _)
    (List.pairwise_map.2 (most_common_sorted xs))
    (List.pairwise_map.2 (most_common_sorted ys))

/-- The values listed by `most_common` are pairwise distinct. -/
theorem most_common_fst_nodup (xs : List Nat) :
    ((most_common xs).map Prod.fst).Nodup := by
  have hperm : ((most_common xs).map Prod.fst).Perm
      ((xs.dedup.map fun r => (r, xs.count r)).map Prod.fst) :=
    (List.perm_insertionSort cntDesc _).map _
  have heq : (xs.dedup.map fun r => (r, xs.count r)).map Prod.fst = xs.dedup := by
    rw [List.map_map]
    exact List.map_id xs.dedup
  rw [heq] at hperm
  exact hperm.nodup_iff.2 (List.nodup_dedup xs)

/-- Every pair listed by `most_common` is a value of the list together with
its multiplicity. -/
theorem most_common_count {xs : List Nat} {p : Nat × Nat}
    (hp : p ∈ most_common xs) : p.2 = xs.count p.1 ∧ p.1 ∈ xs := by
  have hmem := (List.perm_insertionSort cntDesc _).mem_iff.1 hp
  obtain ⟨r, hr, hreq⟩ := List.mem_map.1 hmem
  rw [← hreq]
  exact ⟨rfl, List.mem_dedup.1 hr⟩

/-- Two permuted lists of pairs with the same second projections are equal
when those projections have no duplicates. -/
theorem perm_eq_of_snd_nodup : ∀ {M N : List (Nat × Nat)}, M.Perm N →
    M.map Prod.snd = N.map Prod.snd → (M.map Prod.snd).Nodup → M = N := by
  intro M
  induction M with
  | nil =>
    intro N h _ _
    exact h.nil_eq
  | cons p M ih =>
    intro N h hproj hnodup
    cases N with
    | nil =>
      have := h.length_eq
      simp at this
    | cons q N =>
      simp only [List.map_cons, List.cons.injEq] at hproj
      have hq : q ∈ p :: M := h.mem_iff.2 (List.mem_cons_self q N)
      have hqp : q = p := by
        rcases List.mem_cons.1 hq with h1 | h1
        · exact h1
        · exfalso
          have : q.2 ∈ M.map Prod.snd := List.mem_map.2 ⟨q, h1, rfl⟩
          rw [← hproj.1] at this
          exact (List.nodup_cons.1 hnodup).1 this
      subst hqp
      have hMN : M.Perm N := h.cons_inv
      rw [ih hMN hproj.2 (List.Nodup.of_cons hnodup)]

/-- Second projection through `getD`. -/
theorem snd_getD : ∀ (M : List (Nat × Nat)) (i : Nat),
    (M.getD i (0, 0)).2 = (M.map Prod.snd).getD i 0 := by
  intro M
  induction M with
  | nil => intro i; rfl
  | cons p M ih =>
    intro i
    cases i with
    | zero => rfl
    | succ n => exact ih n

/-- The multiplicities of a sublist of `most_common` entries with distinct
values sum to at most the number of cards. -/
theorem mc_counts_sum_le {xs : List Nat} {ps : List (Nat × Nat)}
    (hps : ∀ p ∈ ps, p ∈ most_common xs) (hnd : (ps.map Prod.fst).Nodup) :
    (ps.map Prod.snd).sum ≤ xs.length := by
  have heq : ps.map Prod.snd = (ps.map Prod.fst).map fun a => xs.count a := by
    rw [List.map_map]
    apply List.map_congr_left
    intro p hp
    exact (most_common_count (hps p hp)).1
  rw [heq]
  exact sum_counts_le xs _ hnd

/-- Multiplicities listed by `most_common` are positive. -/
theorem mc_count_pos {xs : List Nat} {p : Nat × Nat} (hp : p ∈ most_common xs) :
    1 ≤ p.2 := by
  obtain ⟨hc, hm⟩ := most_common_count hp
  rw [hc]
  exact List.count_pos_iff.2 hm

/-! ### Permutation invariance of the five-card classifiers -/

theorem rank_values_perm {l l' : List Card} (h : l.Perm l') :
    (rank_values l).Perm (rank_values l') := h.map _

theorem is_flush_perm {l l' : List Card} (h : l.Perm l') :
    is_flush l = is_flush l' := by
  unfold is_flush
  rw [h.length_eq]
  by_cases h5 : l'.length ≠ 5
  · rw [if_pos h5, if_pos h5]
  rw [if_neg h5, if_neg h5]
  rw [((h.map Card.suit).dedup).length_eq]
  by_cases hd : (l'.map Card.suit).dedup.length ≠ 1
  · rw [if_pos hd, if_pos hd]
  rw [if_neg hd, if_neg hd]
  exact insertionSort_eq_of_perm (rank_values_perm h)

theorem is_royal_flush_perm {l l' : List Card} (h : l.Perm l') :
    is_royal_flush l = is_royal_flush l' := by
  unfold is_royal_flush
  rw [h.length_eq, is_flush_perm h, insertionSort_eq_of_perm (rank_values_perm h)]

theorem is_straight_perm {l l' : List Card} (h : l.Perm l') :
    is_straight l = is_straight l' := by
  unfold is_straight
  rw [h.length_eq, insertionSort_eq_of_perm (rank_values_perm h)]

theorem is_straight_flush_perm {l l' : List Card} (h : l.Perm l') :
    is_straight_flush l = is_straight_flush l' := by
  unfold is_straight_flush
  rw [h.length_eq, is_flush_perm h, is_straight_perm h]

theorem get_high_card_perm {l l' : List Card} (h : l.Perm l') :
    get_high_card l = get_high_card l' :=
  insertionSort_eq_of_perm (rank_values_perm h)

theorem is_quads_perm {l l' : List Card} (h : l.Perm l') :
    is_quads l = is_quads l' := by
  unfold is_quads
  rw [h.length_eq]
  by_cases h5 : l'.length ≠ 5
  · rw [if_pos h5, if_pos h5]
  rw [if_neg h5, if_neg h5]
  have hr := rank_values_perm h
  have hperm := most_common_perm hr
  have hproj := most_common_snd_eq hr
  have hcond : (most_common (rank_values l)).length = 2 ∧
      ((most_common (rank_values l)).getD 0 (0, 0)).2 = 4 ↔
      (most_common (rank_values l')).length = 2 ∧
      ((most_common (rank_values l')).getD 0 (0, 0)).2 = 4 := by
    rw [hperm.length_eq, snd_getD, snd_getD, hproj]
  by_cases hc : (most_common (rank_values l')).length = 2 ∧
      ((most_common (rank_values l')).getD 0 (0, 0)).2 = 4
  · rw [if_pos (hcond.2 hc), if_pos hc]
    have hMN : most_common (rank_values l) = most_common (rank_values l') := by
      apply perm_eq_of_snd_nodup hperm hproj
      obtain ⟨hlen2, h04⟩ := hcond.2 hc
      obtain ⟨m0, m1, hM2⟩ := List.length_eq_two.1 hlen2
      have hm04 : m0.2 = 4 := by
        have := hcond.2 hc |>.2
        rw [hM2] at this
        exact this
      have hsum : m0.2 + m1.2 ≤ 5 := by
        have hle := @mc_counts_sum_le (rank_values l) [m0, m1]
          (by intro p hp; rw [hM2]; exact hp)
          (by
            have := most_common_fst_nodup (rank_values l)
            rw [hM2] at this
            exact this)
        have hlen5 : (rank_values l).length = 5 := by
          unfold rank_values
          rw [List.length_map, h.length_eq]
          omega
        rw [hlen5] at hle
        simpa using hle
      rw [hM2]
      simp only [List.map_cons, List.map_nil]
      refine List.nodup_cons.2 ⟨?_, List.nodup_singleton _⟩
      simp only [List.mem_singleton]
      omega
    rw [hMN]
  · rw [if_neg (fun hh => hc (hcond.1 hh)), if_neg hc]

theorem is_boat_perm {l l' : List Card} (h : l.Perm l') :
    is_boat l = is_boat l' := by
  unfold is_boat
  rw [h.length_eq]
  by_cases h5 : l'.length ≠ 5
  · rw [if_pos h5, if_pos h5]
  rw [if_neg h5, if_neg h5]
  have hr := rank_values_perm h
  have hperm := most_common_perm hr
  have hproj := most_common_snd_eq hr
  have hcond : (most_common (rank_values l)).length = 2 ∧
      ((most_common (rank_values l)).getD 0 (0, 0)).2 = 3 ∧
      ((most_common (rank_values l)).getD 1 (0, 0)).2 = 2 ↔
      (most_common (rank_values l')).length = 2 ∧
      ((most_common (rank_values l')).getD 0 (0, 0)).2 = 3 ∧
      ((most_common (rank_values l')).getD 1 (0, 0)).2 = 2 := by
    rw [hperm.length_eq, snd_getD, snd_getD, snd_getD, snd_getD, hproj]
  by_cases hc : (most_common (rank_values l')).length = 2 ∧
      ((most_common (rank_values l')).getD 0 (0, 0)).2 = 3 ∧
      ((most_common (rank_values l')).getD 1 (0, 0)).2 = 2
  · rw [if_pos (hcond.2 hc), if_pos hc]
    have hMN : most_common (rank_values l) = most_common (rank_values l') := by
      apply perm_eq_of_snd_nodup hperm hproj
      obtain ⟨hlen2, h03, h12⟩ := hcond.2 hc
      obtain ⟨m0, m1, hM2⟩ := List.length_eq_two.1 hlen2
      rw [hM2] at h03 h12 ⊢
      simp only [List.getD_cons_zero, List.getD_cons_succ] at h03 h12
      simp only [List.map_cons, List.map_nil]
      refine List.nodup_cons.2 ⟨?_, List.nodup_singleton _⟩
      simp only [List.mem_singleton]
      omega
    rw [hMN]
  · rw [if_neg (fun hh => hc (hcond.1 hh)), if_neg hc]

/-- When the head multiplicity is unique, permuted equal-multiplicity lists
agree on the head and the tails are permuted. -/
theorem perm_head_eq {m0 n0 : Nat × Nat} {Mt Nt : List (Nat × Nat)}
    (hperm : (m0 :: Mt).Perm (n0 :: Nt))
    (hproj : (m0 :: Mt).map Prod.snd = (n0 :: Nt).map Prod.snd)
    (huniq : ∀ p ∈ Mt, p.2 ≠ m0.2) : n0 = m0 ∧ Mt.Perm Nt := by
  simp only [List.map_cons, List.cons.injEq] at hproj
  have hn0 : n0 ∈ m0 :: Mt := hperm.mem_iff.2 (List.mem_cons_self n0 Nt)
  rcases List.mem_cons.1 hn0 with he | he
  · subst he
    exact ⟨rfl, hperm.cons_inv⟩
  · exact absurd hproj.1.symm (huniq n0 he)

theorem is_trips_perm {l l' : List Card} (h : l.Perm l') :
    is_trips l = is_trips l' := by
  unfold is_trips
  rw [h.length_eq]
  by_cases h5 : l'.length ≠ 5
  · rw [if_pos h5, if_pos h5]
  rw [if_neg h5, if_neg h5]
  have hr := rank_values_perm h
  have hperm := most_common_perm hr
  have hproj := most_common_snd_eq hr
  have hcond : (most_common (rank_values l)).length = 3 ∧
      ((most_common (rank_values l)).getD 0 (0, 0)).2 = 3 ↔
      (most_common (rank_values l')).length = 3 ∧
      ((most_common (rank_values l')).getD 0 (0, 0)).2 = 3 := by
    rw [hperm.length_eq, snd_getD, snd_getD, hproj]
  by_cases hc : (most_common (rank_values l')).length = 3 ∧
      ((most_common (rank_values l')).getD 0 (0, 0)).2 = 3
  · rw [if_pos (hcond.2 hc), if_pos hc]
    obtain ⟨hlen3, h03⟩ := hcond.2 hc
    obtain ⟨m0, m1, m2, hM3⟩ := List.length_eq_three.1 hlen3
    have hlen3N : (most_common (rank_values l')).length = 3 := by
      rw [← hperm.length_eq]
      exact hlen3
    obtain ⟨n0, n1, n2, hN3⟩ := List.length_eq_three.1 hlen3N
    have hm03 : m0.2 = 3 := by rw [hM3] at h03; exact h03
    have hsum : m0.2 + (m1.2 + (m2.2 + 0)) ≤ 5 := by
      have hle := @mc_counts_sum_le (rank_values l) [m0, m1, m2]
        (by intro p hp; rw [hM3]; exact hp)
        (by have := most_common_fst_nodup (rank_values l); rw [hM3] at this; exact this)
      have hlen5 : (rank_values l).length = 5 := by
        unfold rank_values
        rw [List.length_map, h.length_eq]
        omega
      rw [hlen5] at hle
      simpa using hle
    rw [hM3] at hperm hproj
    rw [hN3] at hperm hproj
    have hhead := perm_head_eq hperm hproj (by
      intro p hp
      rcases List.mem_cons.1 hp with he | he
      · subst he; omega
      · simp only [List.mem_singleton] at he; subst he; omega)
    obtain ⟨hn0, htail⟩ := hhead
    rw [hM3, hN3]
    simp only [List.getD_cons_zero, List.getD_cons_succ]
    rw [hn0]
    congr 1
    exact insertionSort_eq_of_perm
      (show ([m1.1, m2.1] : List Nat).Perm [n1.1, n2.1] by simpa using htail.map Prod.fst)
  · rw [if_neg (fun hh => hc (hcond.1 hh)), if_neg hc]

theorem is_two_pair_perm {l l' : List Card} (h : l.Perm l') :
    is_two_pair l = is_two_pair l' := by
  unfold is_two_pair
  rw [h.length_eq]
  by_cases h5 : l'.length ≠ 5
  · rw [if_pos h5, if_pos h5]
  rw [if_neg h5, if_neg h5]
  have hr := rank_values_perm h
  have hperm := most_common_perm hr
  have hproj := most_common_snd_eq hr
  have hcond : (most_common (rank_values l)).length = 3 ∧
      ((most_common (rank_values l)).getD 0 (0, 0)).2 = 2 ∧
      ((most_common (rank_values l)).getD 1 (0, 0)).2 = 2 ↔
      (most_common (rank_values l')).length = 3 ∧
      ((most_common (rank_values l')).getD 0 (0, 0)).2 = 2 ∧
      ((most_common (rank_values l')).getD 1 (0, 0)).2 = 2 := by
    rw [hperm.length_eq, snd_getD, snd_getD, snd_getD, snd_getD, hproj]
  by_cases hc : (most_common (rank_values l')).length = 3 ∧
      ((most_common (rank_values l')).getD 0 (0, 0)).2 = 2 ∧
      ((most_common (rank_values l')).getD 1 (0, 0)).2 = 2
  · rw [if_pos (hcond.2 hc), if_pos hc]
    obtain ⟨hlen3, h02, h12⟩ := hcond.2 hc
    obtain ⟨m0, m1, m2, hM3⟩ := List.length_eq_three.1 hlen3
    have hlen3N : (most_common (rank_values l')).length = 3 := by
      rw [← hperm.length_eq]; exact hlen3
    obtain ⟨n0, n1, n2, hN3⟩ := List.length_eq_three.1 hlen3N
    have hm02 : m0.2 = 2 := by rw [hM3] at h02; exact h02
    have hm12 : m1.2 = 2 := by rw [hM3] at h12; exact h12
    have hsum : m0.2 + (m1.2 + (m2.2 + 0)) ≤ 5 := by
      have hle := @mc_counts_sum_le (rank_values l) [m0, m1, m2]
        (by intro p hp; rw [hM3]; exact hp)
        (by have := most_common_fst_nodup (rank_values l); rw [hM3] at this; exact this)
      have hlen5 : (rank_values l).length = 5 := by
        unfold rank_values
        rw [List.length_map, h.length_eq]
        omega
      rw [hlen5] at hle
      simpa using hle
    rw [hM3] at hperm hproj
    rw [hN3] at hperm hproj
    simp only [List.map_cons, List.map_nil, List.cons.injEq, and_true] at hproj
    obtain ⟨hp0, hp1, hp2⟩ := hproj
    have hn2 : n2 = m2 := by
      have hn2m : n2 ∈ [m0, m1, m2] := hperm.mem_iff.2 (by simp)
      rcases List.mem_cons.1 hn2m with he | he
      · exfalso; rw [he] at hp2; omega
      rcases List.mem_cons.1 he with he2 | he2
      · exfalso; rw [he2] at hp2; omega
      · simpa using he2
    have hfront : ([m0, m1] : List (Nat × Nat)).Perm [n0, n1] := by
      apply (List.perm_append_right_iff [m2]).mp
      have : ([n0, n1] ++ [m2] : List (Nat × Nat)) = [n0, n1, n2] := by
        rw [hn2]; rfl
      rw [this]
      exact hperm
    rw [hM3, hN3]
    simp only [List.getD_cons_zero, List.getD_cons_succ]
    have hsrt : List.insertionSort natDesc [m0.1, m1.1] =
        List.insertionSort natDesc [n0.1, n1.1] :=
      insertionSort_eq_of_perm
        (show ([m0.1, m1.1] : List Nat).Perm [n0.1, n1.1] by simpa using hfront.map Prod.fst)
    rw [hn2, hsrt]
  · rw [if_neg (fun hh => hc (hcond.1 hh)), if_neg hc]

theorem is_one_pair_perm {l l' : List Card} (h : l.Perm l') :
    is_one_pair l = is_one_pair l' := by
  unfold is_one_pair
  rw [h.length_eq]
  by_cases h5 : l'.length ≠ 5
  · rw [if_pos h5, if_pos h5]
  rw [if_neg h5, if_neg h5]
  have hr := rank_values_perm h
  have hperm := most_common_perm hr
  have hproj := most_common_snd_eq hr
  have hcond : (most_common (rank_values l)).length = 4 ∧
      ((most_common (rank_values l)).getD 0 (0, 0)).2 = 2 ↔
      (most_common (rank_values l')).length = 4 ∧
      ((most_common (rank_values l')).getD 0 (0, 0)).2 = 2 := by
    rw [hperm.length_eq, snd_getD, snd_getD, hproj]
  by_cases hc : (most_common (rank_values l')).length = 4 ∧
      ((most_common (rank_values l')).getD 0 (0, 0)).2 = 2
  · rw [if_pos (hcond.2 hc), if_pos hc]
    obtain ⟨hlen4, h02⟩ := hcond.2 hc
    have hex : ∃ m0 m1 m2 m3, most_common (rank_values l) = [m0, m1, m2, m3] := by
      match hm : most_common (rank_values l), hlen4 with
      | [m0, m1, m2, m3], _ => exact ⟨m0, m1, m2, m3, rfl⟩
    obtain ⟨m0, m1, m2, m3, hM4⟩ := hex
    have hlen4N : (most_common (rank_values l')).length = 4 := by
      rw [← hperm.length_eq]; exact hlen4
    have hexN : ∃ n0 n1 n2 n3, most_common (rank_values l') = [n0, n1, n2, n3] := by
      match hm : most_common (rank_values l'), hlen4N with
      | [n0, n1, n2, n3], _ => exact ⟨n0, n1, n2, n3, rfl⟩
    obtain ⟨n0, n1, n2, n3, hN4⟩ := hexN
    have hm02 : m0.2 = 2 := by rw [hM4] at h02; exact h02
    have hpos1 : 1 ≤ m1.2 := mc_count_pos (by rw [hM4]; simp)
    have hpos2 : 1 ≤ m2.2 := mc_count_pos (by rw [hM4]; simp)
    have hpos3 : 1 ≤ m3.2 := mc_count_pos (by rw [hM4]; simp)
    have hsum : m0.2 + (m1.2 + (m2.2 + (m3.2 + 0))) ≤ 5 := by
      have hle := @mc_counts_sum_le (rank_values l) [m0, m1, m2, m3]
        (by intro p hp; rw [hM4]; exact hp)
        (by have := most_common_fst_nodup (rank_values l); rw [hM4] at this; exact this)
      have hlen5 : (rank_values l).length = 5 := by
        unfold rank_values
        rw [List.length_map, h.length_eq]
        omega
      rw [hlen5] at hle
      simpa using hle
    rw [hM4] at hperm hproj
    rw [hN4] at hperm hproj
    have hhead := perm_head_eq hperm hproj (by
      intro p hp
      rcases List.mem_cons.1 hp with he | he
      · subst he; omega
      rcases List.mem_cons.1 he with he2 | he2
      · subst he2; omega
      · simp only [List.mem_singleton] at he2; subst he2; omega)
    obtain ⟨hn0, htail⟩ := hhead
    rw [hM4, hN4]
    simp only [List.getD_cons_zero, List.getD_cons_succ]
    rw [hn0]
    congr 1
    exact insertionSort_eq_of_perm
      (show ([m1.1, m2.1, m3.1] : List Nat).Perm [n1.1, n2.1, n3.1] by
        simpa using htail.map Prod.fst)
  · rw [if_neg (fun hh => hc (hcond.1 hh)), if_neg hc]

/-- `_evaluate_five_cards` is invariant under permutation of its cards. -/
theorem evaluate_five_cards_perm {l l' : List Card} (h : l.Perm l') :
    evaluate_five_cards l = evaluate_five_cards l' := by
  unfold evaluate_five_cards
  rw [is_royal_flush_perm h, is_straight_flush_perm h, is_quads_perm h, is_boat_perm h,
      is_flush_perm h, is_straight_perm h, is_trips_perm h, is_two_pair_perm h,
      is_one_pair_perm h, get_high_card_perm h]

/-! ### The best-five-card search computes the maximum -/

theorem list_gt_irrefl : ∀ l : List Nat, list_gt l l = false
  | [] => rfl
  | x :: xs => by
    simp only [list_gt]
    rw [if_neg (by omega), if_neg (by omega)]
    exact list_gt_irrefl xs

theorem pair_gt_irrefl (s : Nat × List Nat) : pair_gt s s = false := by
  unfold pair_gt
  rw [if_neg (by omega), if_neg (by omega)]
  exact list_gt_irrefl s.2

theorem list_gt_trans : ∀ (a b c : List Nat),
    list_gt a b = true → list_gt b c = true → list_gt a c = true
  | [], b, c => by
    intro h1 _
    cases b <;> simp [list_gt] at h1
  | a :: as, [], c => by
    intro _ h2
    cases c <;> simp [list_gt] at h2
  | a :: as, b :: bs, [] => by
    intro _ _
    simp [list_gt]
  | a :: as, b :: bs, c :: cs => by
    intro h1 h2
    simp only [list_gt] at h1 h2 ⊢
    by_cases hab : a > b
    · by_cases hbc : b > c
      · rw [if_pos (by omega)]
      · rw [if_neg hbc] at h2
        by_cases hbc2 : b < c
        · rw [if_pos hbc2] at h2
          exact absurd h2 (by simp)
        · rw [if_pos (by omega)]
    · rw [if_neg hab] at h1
      by_cases hab2 : a < b
      · rw [if_pos hab2] at h1
        exact absurd h1 (by simp)
      · rw [if_neg hab2] at h1
        by_cases hbc : b > c
        · rw [if_pos (by omega)]
        · rw [if_neg hbc] at h2
          by_cases hbc2 : b < c
          · rw [if_pos hbc2] at h2
            exact absurd h2 (by simp)
          · rw [if_neg hbc2] at h2
            rw [if_neg (by omega), if_neg (by omega)]
            exact list_gt_trans as bs cs h1 h2

theorem pair_gt_trans {a b c : Nat × List Nat}
    (h1 : pair_gt a b = true) (h2 : pair_gt b c = true) : pair_gt a c = true := by
  unfold pair_gt at h1 h2 ⊢
  by_cases hab : a.1 > b.1
  · by_cases hbc : b.1 > c.1
    · rw [if_pos (by omega)]
    · rw [if_neg hbc] at h2
      by_cases hbc2 : b.1 < c.1
      · rw [if_pos hbc2] at h2
        exact absurd h2 (by simp)
      · rw [if_pos (by omega)]
  · rw [if_neg hab] at h1
    by_cases hab2 : a.1 < b.1
    · rw [if_pos hab2] at h1
      exact absurd h1 (by simp)
    · rw [if_neg hab2] at h1
      by_cases hbc : b.1 > c.1
      · rw [if_pos (by omega)]
      · rw [if_neg hbc] at h2
        by_cases hbc2 : b.1 < c.1
        · rw [if_pos hbc2] at h2
          exact absurd h2 (by simp)
        · rw [if_neg hbc2] at h2
          rw [if_neg (by omega), if_neg (by omega)]
          exact list_gt_trans a.2 b.2 c.2 h1 h2

theorem pair_gt_asymm {a b : Nat × List Nat}
    (h1 : pair_gt a b = true) : pair_gt b a = false := by
  by_contra hcon
  rw [Bool.not_eq_false] at hcon
  have := pair_gt_trans h1 hcon
  rw [pair_gt_irrefl] at this
  exact Bool.false_ne_true this

/-- Every classification has category at least 1. -/
theorem evaluate_five_cards_score_pos (l : List Card) :
    1 ≤ (evaluate_five_cards l).1 := by
  unfold evaluate_five_cards
  repeat' split
  all_goals simp

/-- The fold of `_get_best_five_card_hand` keeps a seen combination whose
score no seen combination strictly beats, and never shrinks. -/
theorem foldl_best_spec : ∀ (combos : List (List Card))
    (acc : Option (List Card) × Nat × List Nat),
    ((combos.foldl best_five_step acc = acc ∨
      ∃ c ∈ combos, combos.foldl best_five_step acc = (some c, evaluate_five_cards c)) ∧
     (∀ c ∈ combos,
        pair_gt (evaluate_five_cards c) (combos.foldl best_five_step acc).2 = false) ∧
     ((combos.foldl best_five_step acc).2 = acc.2 ∨
        pair_gt (combos.foldl best_five_step acc).2 acc.2 = true)) := by
  intro combos
  induction combos with
  | nil =>
    intro acc
    exact ⟨Or.inl rfl, by simp, Or.inl rfl⟩
  | cons c cs ih =>
    intro acc
    simp only [List.foldl_cons]
    obtain ⟨hshape, hub, hgrow⟩ := ih (best_five_step acc c)
    by_cases hupd : pair_gt (evaluate_five_cards c) acc.2 = true
    · have hstep : best_five_step acc c = (some c, evaluate_five_cards c) := by
        unfold best_five_step
        rw [if_pos hupd]
      rw [hstep] at hshape hub hgrow ⊢
      refine ⟨?_, ?_, ?_⟩
      · rcases hshape with hs | ⟨c2, hc2, hs⟩
        · exact Or.inr ⟨c, List.mem_cons_self c cs, hs⟩
        · exact Or.inr ⟨c2, List.mem_cons_of_mem c hc2, hs⟩
      · intro c2 hc2
        rcases List.mem_cons.1 hc2 with he | he
        · subst he
          rcases hgrow with hg | hg
          · rw [hg]
            exact pair_gt_irrefl _
          · exact pair_gt_asymm hg
        · exact hub c2 he
      · rcases hgrow with hg | hg
        · right
          rw [hg]
          exact hupd
        · right
          exact pair_gt_trans hg hupd
    · have hstep : best_five_step acc c = acc := by
        unfold best_five_step
        rw [if_neg hupd]
      rw [hstep] at hshape hub hgrow ⊢
      refine ⟨?_, ?_, hgrow⟩
      · rcases hshape with hs | ⟨c2, hc2, hs⟩
        · exact Or.inl hs
        · exact Or.inr ⟨c2, List.mem_cons_of_mem c hc2, hs⟩
      · intro c2 hc2
        rcases List.mem_cons.1 hc2 with he | he
        · subst he
          rcases hgrow with hg | hg
          · rw [hg]
            exact Bool.eq_false_iff.2 fun hcon => hupd hcon
          · by_contra hcon
            rw [Bool.not_eq_false] at hcon
            exact hupd (pair_gt_trans hcon hg)
        · exact hub c2 he

/-- `combinations k` of a long-enough list is non-empty. -/
theorem combinations_ne_nil : ∀ (k : Nat) (l : List Card), k ≤ l.length →
    combinations k l ≠ []
  | 0, l, _ => by simp [combinations]
  | k + 1, [], h => by simp at h
  | k + 1, x :: xs, h => by
    unfold combinations
    intro hcon
    rcases List.append_eq_nil.1 hcon with ⟨h1, _⟩
    exact combinations_ne_nil k xs (by simpa using h) (List.map_eq_nil_iff.1 h1)

/-- Characterisation of `_get_best_five_card_hand` beyond five cards: it
returns (sorted) a combination whose classification no combination strictly
beats. -/
theorem get_best_five_spec (cards : List Card) (hne : cards.length ≠ 5)
    (hlen : 5 ≤ cards.length) :
    ∃ c ∈ combinations 5 cards,
      get_best_five_card_hand cards = List.insertionSort rankGe c ∧
      ∀ c2 ∈ combinations 5 cards,
        pair_gt (evaluate_five_cards c2) (evaluate_five_cards c) = false := by
  obtain ⟨hshape, hub, _⟩ :=
    foldl_best_spec (combinations 5 cards) (none, 0, [])
  obtain ⟨c0, hc0⟩ :=
    List.exists_mem_of_ne_nil _ (combinations_ne_nil 5 cards hlen)
  rcases hshape with hs | ⟨c, hc, hs⟩
  · exfalso
    have h0 := hub c0 hc0
    rw [hs] at h0
    have hpos := evaluate_five_cards_score_pos c0
    unfold pair_gt at h0
    dsimp only at h0
    rw [if_pos (by omega)] at h0
    simp at h0
  · refine ⟨c, hc, ?_, ?_⟩
    · unfold get_best_five_card_hand
      rw [if_neg hne, hs]
      rfl
    · intro c2 hc2
      have := hub c2 hc2
      rw [hs] at this
      exact this

/-- The classification chain of `rank_hand` computes the same (category,
tiebreak) pair as `_evaluate_five_cards` (the two chains in the source are
identical except for the metadata bookkeeping). -/
theorem classify_best_hand_proj (b : List Card) (h : Option (List Card)) (a : List Card)
    (bc hcp : Option Bool) :
    ((classify_best_hand b h a bc hcp).score, (classify_best_hand b h a bc hcp).tiebreakers) =
      evaluate_five_cards b := by
  unfold classify_best_hand evaluate_five_cards
  by_cases h1 : is_royal_flush b = true
  · rw [if_pos h1, if_pos h1]
  rw [if_neg h1, if_neg h1]
  by_cases h2 : is_straight_flush b ≠ 0
  · rw [if_pos h2, if_pos h2]
  rw [if_neg h2, if_neg h2]
  by_cases h3 : is_quads b ≠ []
  · rw [if_pos h3, if_pos h3]
  rw [if_neg h3, if_neg h3]
  by_cases h4 : is_boat b ≠ []
  · rw [if_pos h4, if_pos h4]
  rw [if_neg h4, if_neg h4]
  by_cases h5 : is_flush b ≠ []
  · rw [if_pos h5, if_pos h5]
  rw [if_neg h5, if_neg h5]
  by_cases h6 : is_straight b ≠ 0
  · rw [if_pos h6, if_pos h6]
  rw [if_neg h6, if_neg h6]
  by_cases h7 : is_trips b ≠ []
  · rw [if_pos h7, if_pos h7]
  rw [if_neg h7, if_neg h7]
  by_cases h8 : is_two_pair b ≠ []
  · rw [if_pos h8, if_pos h8]
  rw [if_neg h8, if_neg h8]
  by_cases h9 : is_one_pair b ≠ []
  · rw [if_pos h9, if_pos h9]
  rw [if_neg h9, if_neg h9]

/-! ### C3: 6- and 7-card evaluation is the maximum over 5-card subsets -/

/-- C3: for 6 or 7 unique cards, the (category, tiebreak) pair returned by
the evaluator is a value of the direct 5-card classification on one of the
C(n,5) combinations, and no combination's classification strictly exceeds it
under the lexicographic (category, tiebreak) comparison — i.e. it is the
maximum over all 5-card subsets. -/
theorem C3_best_of_combinations (cards : List Card)
    (hlen : cards.length = 6 ∨ cards.length = 7) (hnd : cards.Nodup) :
    ∃ r, rank_hand cards none = .ok r ∧
      (r.score, r.tiebreakers) ∈ (combinations 5 cards).map evaluate_five_cards ∧
      ∀ s ∈ (combinations 5 cards).map evaluate_five_cards,
        pair_gt s (r.score, r.tiebreakers) = false := by
  have hne5 : cards.length ≠ 5 := by omega
  have hge5 : 5 ≤ cards.length := by omega
  obtain ⟨c, hc, hbest, hub⟩ := get_best_five_spec cards hne5 hge5
  have hok : rank_hand cards none =
      .ok (classify_best_hand (get_best_five_card_hand cards) none cards none none) := by
    unfold rank_hand
    rw [if_neg (by intro hx; rw [hx] at hge5; simp at hge5), if_neg (by omega),
        if_neg (by simp [(dedup_length_eq_iff cards).2 hnd])]
  have hproj := classify_best_hand_proj (get_best_five_card_hand cards) none cards none none
  have hevalsort :
      evaluate_five_cards (get_best_five_card_hand cards) = evaluate_five_cards c := by
    rw [hbest]
    exact evaluate_five_cards_perm (List.perm_insertionSort rankGe c)
  refine ⟨_, hok, ?_, ?_⟩
  · rw [hproj, hevalsort]
    exact List.mem_map.2 ⟨c, hc, rfl⟩
  · intro s hs
    obtain ⟨c2, hc2, hseq⟩ := List.mem_map.1 hs
    rw [hproj, hevalsort, ← hseq]
    exact hub c2 hc2

/-- C3 witness: the seven-card example satisfies the hypotheses and the
maximum property. -/
theorem C3_best_of_combinations_witness :
    ((exSeven.length = 6 ∨ exSeven.length = 7) ∧ exSeven.Nodup) ∧
    (∃ r, rank_hand exSeven none = .ok r ∧
      (r.score, r.tiebreakers) ∈ (combinations 5 exSeven).map evaluate_five_cards ∧
      ∀ s ∈ (combinations 5 exSeven).map evaluate_five_cards,
        pair_gt s (r.score, r.tiebreakers) = false) :=
  ⟨⟨by decide, by decide⟩, C3_best_of_combinations exSeven (by decide) (by decide)⟩

/-! ### C5: the `board_chop` metadata -/

theorem classify_best_hand_board_chop (b : List Card) (h : Option (List Card))
    (a : List Card) (bc hcp : Option Bool) :
    (classify_best_hand b h a bc hcp).board_chop = bc := by
  unfold classify_best_hand
  repeat' split
  all_goals rfl

/-- C5 (amended): when hole cards are supplied, the metadata contains
`board_chop` exactly when at least five of the evaluated cards are non-hole
(board) cards; its value records whether the particular best five-card hand
selected by the combination search (the first maximum in enumeration order)
consists only of board cards; and when it is `True`, an optimal five-card
hand formed from board cards only does exist. -/
theorem C5_amended_board_chop (cards hc : List Card) (r : RankResult)
    (hok : rank_hand cards (some hc) = .ok r) :
    ((cards.filter fun c => decide (c ∉ hc)).length < 5 → r.board_chop = none) ∧
    (5 ≤ (cards.filter fun c => decide (c ∉ hc)).length →
      r.board_chop = some (decide (∀ c ∈ get_best_five_card_hand cards,
        c ∈ cards.filter fun c2 => decide (c2 ∉ hc)))) ∧
    (r.board_chop = some true →
      ∃ combo ∈ combinations 5 cards,
        (∀ c ∈ combo, c ∈ cards.filter fun c2 => decide (c2 ∉ hc)) ∧
        ∀ c2 ∈ combinations 5 cards,
          pair_gt (evaluate_five_cards c2) (evaluate_five_cards combo) = false) := by
  unfold rank_hand at hok
  by_cases h1 : cards = []
  · rw [if_pos h1] at hok
    exact absurd hok (by simp)
  rw [if_neg h1] at hok
  by_cases h2 : cards.length < 5
  · rw [if_pos h2] at hok
    exact absurd hok (by simp)
  rw [if_neg h2] at hok
  by_cases h3 : cards.dedup.length ≠ cards.length
  · rw [if_pos h3] at hok
    exact absurd hok (by simp)
  rw [if_neg h3] at hok
  have hnodup : cards.Nodup := (dedup_length_eq_iff cards).1 (by omega)
  dsimp only at hok
  by_cases h4 : hc.length ≠ 2
  · rw [if_pos h4] at hok
    exact absurd hok (by simp)
  rw [if_neg h4] at hok
  by_cases h5 : ¬ (hc.all fun c => decide (c ∈ cards)) = true
  · rw [if_pos h5] at hok
    exact absurd hok (by simp)
  rw [if_neg h5] at hok
  have hsub : ∀ c ∈ hc, c ∈ cards := by simpa using h5
  by_cases h6 : (cards.filter fun c => decide (c ∉ hc)).length ≥ 5
  · rw [if_pos h6] at hok
    have hlen6 : 6 ≤ cards.length := by
      obtain ⟨h0, hh0⟩ : ∃ h0, h0 ∈ hc := by
        cases hc with
        | nil => simp at h4
        | cons x xs => exact ⟨x, by simp⟩
      have hcons_nodup : (h0 :: cards.filter fun c => decide (c ∉ hc)).Nodup := by
        refine List.nodup_cons.2 ⟨?_, List.Nodup.filter _ hnodup⟩
        intro hmem
        have := List.of_mem_filter hmem
        simp at this
        exact this hh0
      have hcons_sub : ∀ c ∈ h0 :: cards.filter fun c => decide (c ∉ hc), c ∈ cards := by
        intro c hcm
        rcases List.mem_cons.1 hcm with he | he
        · rw [he]
          exact hsub h0 hh0
        · exact List.mem_of_mem_filter he
      have hsp := List.subperm_of_subset hcons_nodup hcons_sub
      have := hsp.length_le
      simp only [List.length_cons] at this
      omega
    have hne5 : cards.length ≠ 5 := by omega
    have hge5 : 5 ≤ cards.length := by omega
    obtain ⟨cbest, hcbest, hbesteq, hubest⟩ := get_best_five_spec cards hne5 hge5
    by_cases h7 : ((get_best_five_card_hand cards).all fun c =>
        decide (c ∈ cards.filter fun c2 => decide (c2 ∉ hc))) = true
    · rw [if_pos h7] at hok
      rw [Except.ok.injEq] at hok
      have hbc : r.board_chop = some true := by
        rw [← hok]
        exact classify_best_hand_board_chop _ _ _ _ _
      have hall : ∀ c ∈ get_best_five_card_hand cards,
          c ∈ cards.filter fun c2 => decide (c2 ∉ hc) :=
        fun c hcm => of_decide_eq_true (List.all_eq_true.1 h7 c hcm)
      refine ⟨fun hlt => absurd h6 (by omega), fun _ => ?_, fun _ => ?_⟩
      · rw [hbc, decide_eq_true hall]
      · refine ⟨cbest, hcbest, ?_, hubest⟩
        intro c hcm
        apply hall
        rw [hbesteq]
        exact (List.perm_insertionSort rankGe cbest).symm.subset hcm
    · rw [if_neg h7] at hok
      rw [Except.ok.injEq] at hok
      have hbc : r.board_chop = some false := by
        rw [← hok]
        exact classify_best_hand_board_chop _ _ _ _ _
      have hnall : ¬ ∀ c ∈ get_best_five_card_hand cards,
          c ∈ cards.filter fun c2 => decide (c2 ∉ hc) := by
        intro hP
        exact h7 (List.all_eq_true.2 fun c hcm => decide_eq_true (hP c hcm))
      refine ⟨fun hlt => absurd h6 (by omega), fun _ => ?_, fun htrue => ?_⟩
      · rw [hbc, decide_eq_false hnall]
      · rw [hbc] at htrue
        simp at htrue
  · rw [if_neg h6] at hok
    rw [Except.ok.injEq] at hok
    have hbc : r.board_chop = none := by
      rw [← hok]
      exact classify_best_hand_board_chop _ _ _ _ _
    refine ⟨fun _ => hbc, fun hge => absurd hge (by omega), fun htrue => ?_⟩
    rw [hbc] at htrue
    exact absurd htrue (by simp)

/-- C5 counterexample: a valid five-card evaluation with hole cards supplied
returns metadata without the `board_chop` key, contradicting the claim that
every such call carries it. -/
theorem C5_counterexample_no_board_chop_key :
    rank_hand
      [(⟨.ace, .spades⟩ : Card), ⟨.ace, .hearts⟩, ⟨.two, .spades⟩,
        ⟨.three, .hearts⟩, ⟨.four, .diamonds⟩]
      (some [⟨.ace, .spades⟩, ⟨.ace, .hearts⟩]) =
      .ok ⟨2, [14, 4, 3, 2], none, none, none⟩ ∧
    ([(⟨.ace, .spades⟩ : Card), ⟨.ace, .hearts⟩, ⟨.two, .spades⟩,
        ⟨.three, .hearts⟩, ⟨.four, .diamonds⟩] : List Card).Nodup ∧
    (∀ c ∈ [(⟨.ace, .spades⟩ : Card), ⟨.ace, .hearts⟩],
      c ∈ [(⟨.ace, .spades⟩ : Card), ⟨.ace, .hearts⟩, ⟨.two, .spades⟩,
        ⟨.three, .hearts⟩, ⟨.four, .diamonds⟩]) :=
  ⟨rfl, by decide, by decide⟩

set_option maxRecDepth 4000 in
/-- C5 witness: a seven-card board-chop evaluation (pocket kings against a
board straight) carries `board_chop = True` and the optimal board-only hand
exists. -/
theorem C5_amended_board_chop_witness :
    rank_hand
      [(⟨.king, .spades⟩ : Card), ⟨.king, .hearts⟩, ⟨.two, .spades⟩, ⟨.three, .hearts⟩,
        ⟨.four, .diamonds⟩, ⟨.five, .clubs⟩, ⟨.six, .spades⟩]
      (some [⟨.king, .spades⟩, ⟨.king, .hearts⟩]) =
      .ok ⟨5, [6], some true, some false, none⟩ ∧
    (∃ combo ∈ combinations 5
        [(⟨.king, .spades⟩ : Card), ⟨.king, .hearts⟩, ⟨.two, .spades⟩, ⟨.three, .hearts⟩,
          ⟨.four, .diamonds⟩, ⟨.five, .clubs⟩, ⟨.six, .spades⟩],
      (∀ c ∈ combo, c ∈
        List.filter (fun c2 => decide (c2 ∉
          [(⟨.king, .spades⟩ : Card), ⟨.king, .hearts⟩]))
          [(⟨.king, .spades⟩ : Card), ⟨.king, .hearts⟩, ⟨.two, .spades⟩, ⟨.three, .hearts⟩,
            ⟨.four, .diamonds⟩, ⟨.five, .clubs⟩, ⟨.six, .spades⟩]) ∧
      ∀ c2 ∈ combinations 5
          [(⟨.king, .spades⟩ : Card), ⟨.king, .hearts⟩, ⟨.two, .spades⟩, ⟨.three, .hearts⟩,
            ⟨.four, .diamonds⟩, ⟨.five, .clubs⟩, ⟨.six, .spades⟩],
        pair_gt (evaluate_five_cards c2) (evaluate_five_cards combo) = false) :=
  ⟨rfl,
    (C5_amended_board_chop
      [⟨.king, .spades⟩, ⟨.king, .hearts⟩, ⟨.two, .spades⟩, ⟨.three, .hearts⟩,
        ⟨.four, .diamonds⟩, ⟨.five, .clubs⟩, ⟨.six, .spades⟩]
      [⟨.king, .spades⟩, ⟨.king, .hearts⟩]
      ⟨5, [6], some true, some false, none⟩ rfl).2.2 rfl⟩

/-! ### C1: showdown winner and pot award -/

/-- C1 (amended): at a heads-up showdown with both players still active, the
player whose (category, tiebreak) is strictly greater wins; on an exact tie
the first player in seating order is kept as winner.  `award_pot` then moves
the entire pot to that single winner and zeroes the pot — the pot is never
split. -/
theorem C1_amended_showdown_award (g : PokerGame) (a b : Player)
    (hps : g.players = [a, b]) (ha : a.is_active = true) (hb : b.is_active = true)
    (r0 r1 : RankResult)
    (h0 : rank_hand (a.hole_cards ++ g.board) (some a.hole_cards) = .ok r0)
    (h1 : rank_hand (b.hole_cards ++ g.board) (some b.hole_cards) = .ok r1) :
    ∃ g1 desc, showdown g =
      .ok (g1, (if pair_gt (r1.score, r1.tiebreakers) (r0.score, r0.tiebreakers)
                then 1 else 0), desc) ∧
      g1.players = g.players ∧ g1.pot = g.pot ∧
      (awardPot (if pair_gt (r1.score, r1.tiebreakers) (r0.score, r0.tiebreakers)
        then 1 else 0) g1).pot = 0 ∧
      (awardPot (if pair_gt (r1.score, r1.tiebreakers) (r0.score, r0.tiebreakers)
        then 1 else 0) g1).players.map Player.stack =
        (if pair_gt (r1.score, r1.tiebreakers) (r0.score, r0.tiebreakers)
         then [a.stack, b.stack + g.pot]
         else [a.stack + g.pot, b.stack]) := by
  unfold showdown
  dsimp only
  rw [hps]
  have hrange2 : List.range ([a, b] : List Player).length = [0, 1] := rfl
  rw [hrange2]
  have hfilter : List.filter (fun i =>
      (([a, b] : List Player).getD i dfltPlayer).is_active) [0, 1] = [0, 1] := by
    rw [List.filter_cons_of_pos (by simpa using ha),
        List.filter_cons_of_pos (by simpa using hb)]
    rfl
  rw [hfilter]
  rw [if_neg (by decide)]
  unfold showdownLoop
  dsimp only [List.getD_cons_zero, List.getD_cons_succ]
  rw [h0]
  unfold showdownLoop
  dsimp only [List.getD_cons_zero, List.getD_cons_succ]
  rw [h1]
  unfold showdownLoop
  dsimp only [Bind.bind, Except.bind]
  by_cases hgt : pair_gt (r1.score, r1.tiebreakers) (r0.score, r0.tiebreakers) = true
  · simp only [hgt]
    refine ⟨_, _, rfl, rfl, rfl, rfl, ?_⟩
    unfold awardPot Player.win_pot
    simp
  · simp only [Bool.not_eq_true] at hgt
    simp only [hgt]
    refine ⟨_, _, rfl, rfl, rfl, rfl, ?_⟩
    unfold awardPot Player.win_pot
    simp

set_option maxRecDepth 8000 in
/-- C1 counterexample: both showdown hands evaluate to exactly the same
(category, tiebreak) pair (5, [6]), yet the winner is player 0 and
`award_pot` moves the entire pot of 100 to that player, leaving stacks
[1100, 1000] rather than the even split [1050, 1050] the claim requires. -/
theorem C1_counterexample_tie_not_split :
    rank_hand ((c1TieGame.players.getD 0 dfltPlayer).hole_cards ++ c1TieGame.board)
        (some (c1TieGame.players.getD 0 dfltPlayer).hole_cards) =
      .ok ⟨5, [6], some true, some false, none⟩ ∧
    rank_hand ((c1TieGame.players.getD 1 dfltPlayer).hole_cards ++ c1TieGame.board)
        (some (c1TieGame.players.getD 1 dfltPlayer).hole_cards) =
      .ok ⟨5, [6], some true, some false, none⟩ ∧
    (∃ g1, showdown c1TieGame = .ok (g1, 0, handName 5) ∧
      (awardPot 0 g1).players.map Player.stack = [1100, 1000] ∧
      (awardPot 0 g1).pot = 0) ∧
    ([1100, 1000] : List ℚ) ≠ [1050, 1050] :=
  ⟨rfl, rfl, ⟨_, rfl,
    by simp [awardPot, c1TieGame, Player.win_pot, dfltPlayer]; norm_num, rfl⟩,
   by decide⟩

set_option maxRecDepth 8000 in
/-- C1 witness: on the strict-winner state, the theorem yields winner 1 and
the full pot awarded to player 1. -/
theorem C1_amended_showdown_award_witness :
    ∃ g1 desc, showdown c1WinGame =
      .ok (g1, (if pair_gt ((5 : ℕ), ([8] : List ℕ)) (5, [6]) then 1 else 0), desc) ∧
      g1.players = c1WinGame.players ∧ g1.pot = c1WinGame.pot ∧
      (awardPot (if pair_gt ((5 : ℕ), ([8] : List ℕ)) (5, [6]) then 1 else 0) g1).pot = 0 ∧
      (awardPot (if pair_gt ((5 : ℕ), ([8] : List ℕ)) (5, [6]) then 1 else 0)
          g1).players.map Player.stack =
        (if pair_gt ((5 : ℕ), ([8] : List ℕ)) (5, [6])
         then [c1PlayerA.stack, c1PlayerB.stack + c1WinGame.pot]
         else [c1PlayerA.stack + c1WinGame.pot, c1PlayerB.stack]) :=
  C1_amended_showdown_award c1WinGame c1PlayerA c1PlayerB rfl rfl rfl
    ⟨5, [6], some true, some false, none⟩ ⟨5, [8], some false, some true, none⟩ rfl rfl

/-! ### C2: chip conservation -/

theorem sum_map_set_stack (l : List Player) (i : Nat) (q : Player) :
    ((l.set i q).map Player.stack).sum =
      (l.map Player.stack).sum +
        (if i < l.length then q.stack - (l.getD i dfltPlayer).stack else 0) := by
  induction l generalizing i with
  | nil => simp
  | cons a t ih =>
    cases i with
    | zero =>
      simp only [List.set_cons_zero, List.map_cons, List.sum_cons,
        List.getD_cons_zero, List.length_cons]
      rw [if_pos (Nat.succ_pos _)]
      ring
    | succ n =>
      simp only [List.set_cons_succ, List.map_cons, List.sum_cons,
        List.getD_cons_succ, List.length_cons]
      rw [ih n]
      by_cases hn : n < t.length
      · rw [if_pos hn, if_pos (by omega)]
        ring
      · rw [if_neg hn, if_neg (by omega)]
        ring

theorem sum_map_stack_map (f : Player → Player) (hf : ∀ p, (f p).stack = p.stack)
    (l : List Player) :
    ((l.map f).map Player.stack).sum = (l.map Player.stack).sum := by
  induction l with
  | nil => rfl
  | cons a t ih =>
    simp only [List.map_cons, List.sum_cons, hf]
    rw [ih]

theorem getD_set_ne {α : Type} (l : List α) (i j : Nat) (a d : α) (hij : i ≠ j) :
    (l.set i a).getD j d = l.getD j d := by
  rw [List.getD_eq_getElem?_getD, List.getD_eq_getElem?_getD,
    List.getElem?_set_ne hij]

theorem Player.post_blind_spec (p : Player) (a : ℚ) :
    (p.post_blind a).stack = p.stack - min a p.stack ∧
    (p.post_blind a).current_bet = min a p.stack := by
  unfold Player.post_blind
  dsimp only
  split
  · exact ⟨rfl, rfl⟩
  · exact ⟨rfl, rfl⟩

theorem findIdx?_spec {α : Type} {p : α → Bool} {xs : List α} {i : Nat} (d : α)
    (h : xs.findIdx? p = some i) : i < xs.length ∧ p (xs.getD i d) = true := by
  rw [List.findIdx?_eq_some_iff_findIdx_eq] at h
  obtain ⟨hl, hidx⟩ := h
  subst hidx
  refine ⟨hl, ?_⟩
  rw [List.getD_eq_getElem _ _ hl]
  exact List.findIdx_getElem

theorem postBlinds_chips (g g' : PokerGame) (h : postBlinds g = .ok g') :
    chips g' = sumStacks g ∧ g'.players.length = g.players.length := by
  unfold postBlinds at h
  by_cases h2 : g.players.length ≠ 2
  · rw [if_pos h2] at h
    exact absurd h (by simp)
  · rw [if_neg h2] at h
    rcases hbi : g.players.findIdx? (fun p => p.position == 1) with _ | bi
    all_goals rcases hbbi : g.players.findIdx? (fun p => p.position == 0) with _ | bbi
    all_goals rw [hbi, hbbi] at h
    · exact absurd h (by simp)
    · exact absurd h (by simp)
    · exact absurd h (by simp)
    have hbis := findIdx?_spec dfltPlayer hbi
    have hbbis := findIdx?_spec dfltPlayer hbbi
    have hp1 : (g.players.getD bi dfltPlayer).position = 1 := by
      have := hbis.2
      simpa using this
    have hp0 : (g.players.getD bbi dfltPlayer).position = 0 := by
      have := hbbis.2
      simpa using this
    have hne : bi ≠ bbi := by
      intro e
      rw [e, hp0] at hp1
      omega
    simp only [Except.ok.injEq] at h
    subst h
    constructor
    · unfold chips sumStacks
      dsimp only
      rw [sum_map_set_stack, if_pos (by rw [List.length_set]; exact hbbis.1)]
      rw [sum_map_set_stack, if_pos hbis.1]
      rw [getD_set_ne _ _ _ _ _ hne]
      rw [(Player.post_blind_spec _ _).1, (Player.post_blind_spec _ _).2,
        (Player.post_blind_spec _ _).1, (Player.post_blind_spec _ _).2]
      ring
    · dsimp only
      rw [List.length_set, List.length_set]

theorem except_bind_ok {ε α β : Type} (a : α) (f : α → Except ε β) :
    (Except.ok a >>= f) = f a := rfl

theorem except_bind_error {ε α β : Type} (e : ε) (f : α → Except ε β) :
    ((Except.error e : Except ε α) >>= f) = .error e := rfl

theorem resetForNewHand_chips (shuffled : List Card) (g : PokerGame) :
    chips (resetForNewHand shuffled g) = sumStacks g ∧
    (resetForNewHand shuffled g).players.length = g.players.length := by
  unfold resetForNewHand chips sumStacks
  dsimp only
  constructor
  · rw [sum_map_stack_map Player.reset_for_new_hand (fun p => rfl)]
    ring
  · rw [List.length_map]

theorem dealFlop_frame (g g' : PokerGame) (h : dealFlop g = .ok g') :
    g'.players = g.players ∧ g'.pot = g.pot := by
  unfold dealFlop at h
  rcases h1 : dealCards g.deck 1 with e | ⟨b, d1⟩
  · rw [h1, except_bind_error] at h
    exact absurd h (by simp)
  · rw [h1, except_bind_ok] at h
    dsimp only at h
    rcases h2 : dealCards d1 3 with e | ⟨fl, d2⟩
    · rw [h2, except_bind_error] at h
      exact absurd h (by simp)
    · rw [h2, except_bind_ok] at h
      dsimp only at h
      simp only [Except.ok.injEq] at h
      subst h
      exact ⟨rfl, rfl⟩

theorem dealTurn_frame (g g' : PokerGame) (h : dealTurn g = .ok g') :
    g'.players = g.players ∧ g'.pot = g.pot := by
  unfold dealTurn at h
  rcases h1 : dealCards g.deck 1 with e | ⟨b, d1⟩
  · rw [h1, except_bind_error] at h
    exact absurd h (by simp)
  · rw [h1, except_bind_ok] at h
    dsimp only at h
    rcases h2 : dealCards d1 1 with e | ⟨t, d2⟩
    · rw [h2, except_bind_error] at h
      exact absurd h (by simp)
    · rw [h2, except_bind_ok] at h
      dsimp only at h
      simp only [Except.ok.injEq] at h
      subst h
      exact ⟨rfl, rfl⟩

theorem dealRiver_frame (g g' : PokerGame) (h : dealRiver g = .ok g') :
    g'.players = g.players ∧ g'.pot = g.pot := by
  unfold dealRiver at h
  rcases h1 : dealCards g.deck 1 with e | ⟨b, d1⟩
  · rw [h1, except_bind_error] at h
    exact absurd h (by simp)
  · rw [h1, except_bind_ok] at h
    dsimp only at h
    rcases h2 : dealCards d1 1 with e | ⟨r, d2⟩
    · rw [h2, except_bind_error] at h
      exact absurd h (by simp)
    · rw [h2, except_bind_ok] at h
      dsimp only at h
      simp only [Except.ok.injEq] at h
      subst h
      exact ⟨rfl, rfl⟩

theorem dealHoleCardsAux_chips (idxs : List Nat) :
    ∀ (g g' : PokerGame), dealHoleCardsAux g idxs = .ok g' →
      chips g' = chips g ∧ g'.players.length = g.players.length := by
  induction idxs with
  | nil =>
    intro g g' h
    unfold dealHoleCardsAux at h
    simp only [Except.ok.injEq] at h
    subst h
    exact ⟨rfl, rfl⟩
  | cons i rest ih =>
    intro g g' h
    unfold dealHoleCardsAux at h
    rcases h1 : dealCards g.deck 2 with e | ⟨dealt, deck⟩
    · rw [h1, except_bind_error] at h
      exact absurd h (by simp)
    · rw [h1, except_bind_ok] at h
      dsimp only at h
      have hrec := ih _ _ h
      constructor
      · rw [hrec.1]
        unfold chips sumStacks
        dsimp only
        rw [sum_map_set_stack]
        by_cases hi : i < g.players.length
        · rw [if_pos hi]
          have hst : ({ g.players.getD i dfltPlayer with hole_cards := dealt }
              : Player).stack = (g.players.getD i dfltPlayer).stack := rfl
          rw [hst]
          ring
        · rw [if_neg hi]
          ring
      · rw [hrec.2]
        dsimp only
        rw [List.length_set]

theorem dealHoleCards_chips (g g' : PokerGame) (h : dealHoleCards g = .ok g') :
    chips g' = chips g ∧ g'.players.length = g.players.length :=
  dealHoleCardsAux_chips _ _ _ h

theorem collectBets_chips (g : PokerGame) :
    chips (collectBets g) = chips g ∧
    (collectBets g).players.length = g.players.length := by
  unfold collectBets chips sumStacks
  dsimp only
  exact ⟨by rw [sum_map_stack_map (fun p => { p with current_bet := 0 })
      (fun p => rfl)],
    by rw [List.length_map]⟩

theorem execAction_chips (g : PokerGame) (i : Nat) (lr : Option Nat)
    (a : String) (s : ℚ) (hi : i < g.players.length) :
    chips (execAction g i lr a s).game = chips g ∧
    (execAction g i lr a s).game.players.length = g.players.length := by
  unfold execAction ActOut.game
  by_cases h1 : a = "fold"
  · rw [if_pos h1]
    dsimp only
    constructor
    · unfold chips sumStacks
      dsimp only
      rw [sum_map_set_stack, if_pos hi]
      have hst : ((g.players.getD i dfltPlayer).fold_hand).stack =
          (g.players.getD i dfltPlayer).stack := rfl
      rw [hst]
      ring
    · rw [List.length_set]
  · rw [if_neg h1]
    by_cases h2 : a = "call"
    · rw [if_pos h2]
      dsimp only
      constructor
      · unfold chips sumStacks
        dsimp only
        rw [sum_map_set_stack, if_pos hi]
        rw [(Player.bet_spec _ _).1, (Player.bet_spec _ _).2.2.1]
        ring
      · rw [List.length_set]
    · rw [if_neg h2]
      by_cases h3 : a = "raise"
      · rw [if_pos h3]
        dsimp only
        constructor
        · unfold chips sumStacks
          dsimp only
          rw [sum_map_set_stack, if_pos hi]
          rw [(Player.bet_spec _ _).1, (Player.bet_spec _ _).2.2.1]
          ring
        · rw [List.length_set]
      · rw [if_neg h3]
        exact ⟨rfl, rfl⟩

theorem mem_insertPosOrder (ps : List Player) (rev : Bool) (i j : Nat) :
    ∀ acc : List Nat, j ∈ insertPosOrder ps rev i acc → j = i ∨ j ∈ acc := by
  intro acc
  induction acc with
  | nil =>
    intro h
    unfold insertPosOrder at h
    rw [List.mem_singleton] at h
    exact Or.inl h
  | cons k rest ih =>
    intro h
    unfold insertPosOrder at h
    dsimp only at h
    split at h
    · rcases List.mem_cons.1 h with rfl | h2
      · exact Or.inl rfl
      · exact Or.inr h2
    · rcases List.mem_cons.1 h with rfl | h2
      · exact Or.inr (List.mem_cons_self _ _)
      · rcases ih h2 with rfl | h3
        · exact Or.inl rfl
        · exact Or.inr (List.mem_cons_of_mem _ h3)

theorem mem_orderByPosition (ps : List Player) (rev : Bool) :
    ∀ (idxs : List Nat) (j : Nat), j ∈ orderByPosition ps rev idxs → j ∈ idxs := by
  intro idxs
  induction idxs with
  | nil =>
    intro j h
    simp [orderByPosition] at h
  | cons k rest ih =>
    intro j h
    unfold orderByPosition at h
    rw [List.foldr_cons] at h
    rcases mem_insertPosOrder ps rev k j _ h with rfl | h2
    · exact List.mem_cons_self _ _
    · exact List.mem_cons_of_mem _ (ih j h2)

theorem bettingLoop_chips (B : Brains) (phase : String) :
    ∀ (fuel : Nat) (g : PokerGame) (order : List Nat) (ac : Nat)
      (lr : Option Nat) (g' : PokerGame) (b : Bool),
      (∀ j ∈ order, j < g.players.length) → order ≠ [] →
      bettingLoop B phase fuel g order ac lr = .ok (g', b) →
      chips g' = chips g ∧ g'.players.length = g.players.length := by
  intro fuel
  induction fuel with
  | zero =>
    intro g order ac lr g' b ho hne h
    exact absurd h (by simp [bettingLoop])
  | succ n ih =>
    intro g order ac lr g' b ho hne h
    unfold bettingLoop at h
    have hmem : order.getD (ac % order.length) 0 ∈ order := by
      have hlen : 0 < order.length := List.length_pos.2 hne
      have hlt : ac % order.length < order.length := Nat.mod_lt _ hlen
      rw [List.getD_eq_getElem _ _ hlt]
      exact List.getElem_mem _
    have hi : order.getD (ac % order.length) 0 < g.players.length := ho _ hmem
    dsimp only at h
    split at h
    · split at h
      · simp only [Except.ok.injEq, Prod.mk.injEq] at h
        obtain ⟨rfl, rfl⟩ := h
        exact collectBets_chips g
      · exact ih g order (ac + 1) lr g' b ho hne h
    · split at h
      · simp only [Except.ok.injEq, Prod.mk.injEq] at h
        obtain ⟨rfl, rfl⟩ := h
        exact collectBets_chips g
      · split at h
        · simp only [Except.ok.injEq, Prod.mk.injEq] at h
          obtain ⟨rfl, rfl⟩ := h
          exact collectBets_chips g
        · rcases hea : execAction g (order.getD (ac % order.length) 0) lr
              (decideAction B phase g
                (g.players.getD (order.getD (ac % order.length) 0) dfltPlayer)).1
              (decideAction B phase g
                (g.players.getD (order.getD (ac % order.length) 0) dfltPlayer)).2
            with gf | ⟨gc, lr2⟩
          all_goals rw [hea] at h
          all_goals have hex := (execAction_chips g
            (order.getD (ac % order.length) 0) lr
            (decideAction B phase g
              (g.players.getD (order.getD (ac % order.length) 0) dfltPlayer)).1
            (decideAction B phase g
              (g.players.getD (order.getD (ac % order.length) 0) dfltPlayer)).2 hi)
          all_goals rw [hea] at hex
          all_goals dsimp only [ActOut.game] at hex
          · dsimp only at h
            simp only [Except.ok.injEq, Prod.mk.injEq] at h
            obtain ⟨rfl, rfl⟩ := h
            exact hex
          · dsimp only at h
            split at h
            · exact absurd h (by simp)
            · have hrec := ih gc order (ac + 1) lr2 g' b
                (by rw [hex.2]; exact ho) hne h
              exact ⟨by rw [hrec.1, hex.1], by rw [hrec.2, hex.2]⟩

theorem bettingRound_chips (B : Brains) (phase : String) (g g' : PokerGame)
    (b : Bool) (h : bettingRound B phase g = .ok (g', b)) :
    chips g' = chips g ∧ g'.players.length = g.players.length := by
  unfold bettingRound at h
  dsimp only at h
  set g1 := if phase ≠ preflopStreet then { g with current_bet := 0, players := g.players.map (fun p => { p with current_bet := 0 }) } else g with hg1
  have hchips1 : chips g1 = chips g := by
    rw [hg1]
    split
    · unfold chips sumStacks
      dsimp only
      rw [sum_map_stack_map (fun p => { p with current_bet := 0 }) (fun p => rfl)]
    · rfl
  have hlen1 : g1.players.length = g.players.length := by
    rw [hg1]
    split
    · dsimp only
      rw [List.length_map]
    · rfl
  split at h
  · simp only [Except.ok.injEq, Prod.mk.injEq] at h
    obtain ⟨rfl, rfl⟩ := h
    exact ⟨hchips1, hlen1⟩
  · rename_i hlen
    have hres := (bettingLoop_chips B phase bettingFuel g1 _ 0 none g' b
      (fun j hj => by
        have hj2 := mem_orderByPosition _ _ _ _ hj
        have hj3 := (List.mem_filter.1 hj2).1
        exact List.mem_range.1 hj3)
      (fun e => by rw [e] at hlen; simp at hlen) h)
    exact ⟨by rw [hres.1, hchips1], by rw [hres.2, hlen1]⟩

theorem showdownLoop_lt (g : PokerGame) (n : Nat) :
    ∀ (idxs : List Nat) (best : Option (Nat × Nat × List Nat)) (w : Nat)
      (s : Nat × List Nat),
      (∀ j ∈ idxs, j < n) → (∀ j s0, best = some (j, s0) → j < n) →
      showdownLoop g idxs best = .ok (w, s) → w < n := by
  intro idxs
  induction idxs with
  | nil =>
    intro best w s hidx hbest h
    unfold showdownLoop at h
    rcases best with _ | ⟨j, s0⟩
    · exact absurd h (by simp)
    · simp only [Except.ok.injEq, Prod.mk.injEq] at h
      obtain ⟨rfl, rfl⟩ := h
      exact hbest j s0 rfl
  | cons i rest ih =>
    intro best w s hidx hbest h
    unfold showdownLoop at h
    rcases best with _ | ⟨k, bs⟩
    · replace h : (rank_hand ((g.players.getD i dfltPlayer).hole_cards ++ g.board)
          (some (g.players.getD i dfltPlayer).hole_cards) >>= fun r =>
          showdownLoop g rest (some (i, (r.score, r.tiebreakers)))) =
          Except.ok (w, s) := h
      rcases hr : rank_hand ((g.players.getD i dfltPlayer).hole_cards ++ g.board)
          (some (g.players.getD i dfltPlayer).hole_cards) with e | r
      · rw [hr, except_bind_error] at h
        exact absurd h (by simp)
      · rw [hr, except_bind_ok] at h
        refine ih _ w s (fun j hj => hidx j (List.mem_cons_of_mem _ hj)) ?_ h
        intro j s0 e
        simp only [Option.some.injEq, Prod.mk.injEq] at e
        obtain ⟨rfl, -⟩ := e
        exact hidx i (List.mem_cons_self _ _)
    · replace h : (rank_hand ((g.players.getD i dfltPlayer).hole_cards ++ g.board)
          (some (g.players.getD i dfltPlayer).hole_cards) >>= fun r =>
          showdownLoop g rest
            (if pair_gt (r.score, r.tiebreakers) bs then
              some (i, (r.score, r.tiebreakers))
            else some (k, bs))) = Except.ok (w, s) := h
      rcases hr : rank_hand ((g.players.getD i dfltPlayer).hole_cards ++ g.board)
          (some (g.players.getD i dfltPlayer).hole_cards) with e | r
      · rw [hr, except_bind_error] at h
        exact absurd h (by simp)
      · rw [hr, except_bind_ok] at h
        refine ih _ w s (fun j hj => hidx j (List.mem_cons_of_mem _ hj)) ?_ h
        intro j s0 e
        split at e
        · simp only [Option.some.injEq, Prod.mk.injEq] at e
          obtain ⟨rfl, -⟩ := e
          exact hidx i (List.mem_cons_self _ _)
        · simp only [Option.some.injEq, Prod.mk.injEq] at e
          obtain ⟨rfl, -⟩ := e
          exact hbest k bs rfl

theorem showdown_spec (g g1 : PokerGame) (w : Nat) (d : String)
    (h : showdown g = .ok (g1, w, d)) :
    g1.players = g.players ∧ g1.pot = g.pot ∧ w < g.players.length := by
  unfold showdown at h
  dsimp only at h
  split at h
  · rename_i hone
    simp only [Except.ok.injEq, Prod.mk.injEq] at h
    obtain ⟨rfl, rfl, rfl⟩ := h
    refine ⟨rfl, rfl, ?_⟩
    have hpos : 0 < (List.filter
        (fun i => (g.players.getD i dfltPlayer).is_active)
        (List.range g.players.length)).length := by
      rw [hone]
      omega
    rw [List.getD_eq_getElem _ _ hpos]
    exact List.mem_range.1 (List.mem_filter.1 (List.getElem_mem hpos)).1
  · rcases hl : showdownLoop { g with game_phase := showdownPhase }
        (List.filter (fun i => (g.players.getD i dfltPlayer).is_active)
          (List.range g.players.length)) none with e | ⟨w2, s2⟩
    · rw [hl, except_bind_error] at h
      exact absurd h (by simp)
    · rw [hl, except_bind_ok] at h
      dsimp only at h
      simp only [Except.ok.injEq, Prod.mk.injEq] at h
      obtain ⟨rfl, rfl, rfl⟩ := h
      refine ⟨rfl, rfl, ?_⟩
      refine showdownLoop_lt _ g.players.length _ none w2 s2 ?_ (by simp) hl
      intro j hj
      exact List.mem_range.1 (List.mem_filter.1 hj).1

theorem awardPot_chips (w : Nat) (g : PokerGame) (hw : w < g.players.length) :
    chips (awardPot w g) = chips g ∧ (awardPot w g).pot = 0 := by
  unfold awardPot chips sumStacks
  dsimp only
  constructor
  · rw [sum_map_set_stack, if_pos hw]
    have hst : ((g.players.getD w dfltPlayer).win_pot g.pot).stack =
        (g.players.getD w dfltPlayer).stack + g.pot := rfl
    rw [hst]
    ring
  · rfl

theorem foldReturn_spec (g g' : PokerGame) (t : List PyVal)
    (h : foldReturn g = .ok (g', t)) :
    chips g' = chips g ∧ g'.pot = 0 := by
  unfold foldReturn at h
  rcases hf : g.players.findIdx? (fun p => p.is_active) with _ | w
  · rw [hf] at h
    exact absurd h (by simp)
  · rw [hf] at h
    dsimp only at h
    simp only [Except.ok.injEq, Prod.mk.injEq] at h
    obtain ⟨rfl, rfl⟩ := h
    exact awardPot_chips w g (findIdx?_spec dfltPlayer hf).1

theorem playShowdown_spec (g g' : PokerGame) (t : List PyVal)
    (h : playShowdown g = .ok (g', t)) :
    chips g' = chips g ∧ g'.pot = 0 := by
  unfold playShowdown at h
  rcases hs : showdown g with e | ⟨g1, w, d⟩
  · rw [hs, except_bind_error] at h
    exact absurd h (by simp)
  · rw [hs, except_bind_ok] at h
    dsimp only at h
    simp only [Except.ok.injEq, Prod.mk.injEq] at h
    obtain ⟨rfl, rfl⟩ := h
    have hsp := showdown_spec g g1 w d hs
    have hw : w < g1.players.length := by
      rw [hsp.1]
      exact hsp.2.2
    have ha := awardPot_chips w g1 hw
    refine ⟨?_, ha.2⟩
    rw [ha.1]
    unfold chips sumStacks
    rw [hsp.1, hsp.2.1]

theorem playRiver_spec (B : Brains) (bai : Bool) (g g' : PokerGame) (t : List PyVal)
    (h : playRiver B bai g = .ok (g', t)) :
    chips g' = chips g ∧ g'.pot = 0 := by
  unfold playRiver at h
  split at h
  · rcases hd : dealRiver g with e | g2
    · rw [hd, except_bind_error] at h
      exact absurd h (by simp)
    · rw [hd, except_bind_ok] at h
      have hfr := dealRiver_frame g g2 hd
      have hch2 : chips g2 = chips g := by
        unfold chips sumStacks
        rw [hfr.1, hfr.2]
      split at h
      · have hps := playShowdown_spec g2 g' t h
        exact ⟨by rw [hps.1, hch2], hps.2⟩
      · rcases hb : bettingRound B riverStreet g2 with e | ⟨g3, bb⟩
        · rw [hb, except_bind_error] at h
          exact absurd h (by simp)
        · rw [hb, except_bind_ok] at h
          have hbr := bettingRound_chips B riverStreet g2 g3 bb hb
          dsimp only at h
          split at h
          · have hps := playShowdown_spec g3 g' t h
            exact ⟨by rw [hps.1, hbr.1, hch2], hps.2⟩
          · have hps := foldReturn_spec g3 g' t h
            exact ⟨by rw [hps.1, hbr.1, hch2], hps.2⟩
  · exact playShowdown_spec g g' t h

theorem playTurn_spec (B : Brains) (bai : Bool) (g g' : PokerGame) (t : List PyVal)
    (h : playTurn B bai g = .ok (g', t)) :
    chips g' = chips g ∧ g'.pot = 0 := by
  unfold playTurn at h
  split at h
  · rcases hd : dealTurn g with e | g2
    · rw [hd, except_bind_error] at h
      exact absurd h (by simp)
    · rw [hd, except_bind_ok] at h
      have hfr := dealTurn_frame g g2 hd
      have hch2 : chips g2 = chips g := by
        unfold chips sumStacks
        rw [hfr.1, hfr.2]
      split at h
      · have hps := playRiver_spec B bai g2 g' t h
        exact ⟨by rw [hps.1, hch2], hps.2⟩
      · rcases hb : bettingRound B turnStreet g2 with e | ⟨g3, bb⟩
        · rw [hb, except_bind_error] at h
          exact absurd h (by simp)
        · rw [hb, except_bind_ok] at h
          have hbr := bettingRound_chips B turnStreet g2 g3 bb hb
          dsimp only at h
          split at h
          · have hps := playRiver_spec B bai g3 g' t h
            exact ⟨by rw [hps.1, hbr.1, hch2], hps.2⟩
          · have hps := foldReturn_spec g3 g' t h
            exact ⟨by rw [hps.1, hbr.1, hch2], hps.2⟩
  · exact playRiver_spec B bai g g' t h

theorem playFlop_spec (B : Brains) (bai : Bool) (g g' : PokerGame) (t : List PyVal)
    (h : playFlop B bai g = .ok (g', t)) :
    chips g' = chips g ∧ g'.pot = 0 := by
  unfold playFlop at h
  split at h
  · rcases hd : dealFlop g with e | g2
    · rw [hd, except_bind_error] at h
      exact absurd h (by simp)
    · rw [hd, except_bind_ok] at h
      have hfr := dealFlop_frame g g2 hd
      have hch2 : chips g2 = chips g := by
        unfold chips sumStacks
        rw [hfr.1, hfr.2]
      split at h
      · have hps := playTurn_spec B bai g2 g' t h
        exact ⟨by rw [hps.1, hch2], hps.2⟩
      · rcases hb : bettingRound B flopStreet g2 with e | ⟨g3, bb⟩
        · rw [hb, except_bind_error] at h
          exact absurd h (by simp)
        · rw [hb, except_bind_ok] at h
          have hbr := bettingRound_chips B flopStreet g2 g3 bb hb
          dsimp only at h
          split at h
          · have hps := playTurn_spec B bai g3 g' t h
            exact ⟨by rw [hps.1, hbr.1, hch2], hps.2⟩
          · have hps := foldReturn_spec g3 g' t h
            exact ⟨by rw [hps.1, hbr.1, hch2], hps.2⟩
  · exact playTurn_spec B bai g g' t h

/-- C2: chip conservation over a complete hand.  Whenever `play_hand`
returns normally, the sum of the players' stacks plus the pot afterwards
equals the sum of the players' stacks beforehand (the orchestrator calls
`play_hand` only with an empty pot: `reset_for_new_hand` zeroes the pot
before any chips move), and the pot is exactly 0 after the award. -/
theorem C2_chip_conservation (B : Brains) (shuffled : List Card) (g : PokerGame) :
    match playHand B shuffled g with
    | .ok r => sumStacks r.1 + r.1.pot = sumStacks g ∧ r.1.pot = 0
    | .error _ => True := by
  rcases hph : playHand B shuffled g with e | ⟨g', t⟩
  · trivial
  · show sumStacks g' + g'.pot = sumStacks g ∧ g'.pot = 0
    unfold playHand at hph
    replace hph : (postBlinds (resetForNewHand shuffled g) >>= fun g1 =>
        dealHoleCards g1 >>= fun g2 =>
        bettingRound B preflopStreet g2 >>= fun s =>
        if s.2 then
          playFlop B (s.1.players.all fun p => p.is_all_in || !p.is_active) s.1
        else foldReturn s.1) = Except.ok (g', t) := hph
    rcases hpb : postBlinds (resetForNewHand shuffled g) with e | g1
    · rw [hpb, except_bind_error] at hph
      exact absurd hph (by simp)
    · rw [hpb, except_bind_ok] at hph
      rcases hdh : dealHoleCards g1 with e | g2
      · rw [hdh, except_bind_error] at hph
        exact absurd hph (by simp)
      · rw [hdh, except_bind_ok] at hph
        rcases hbr : bettingRound B preflopStreet g2 with e | ⟨g3, bb⟩
        · rw [hbr, except_bind_error] at hph
          exact absurd hph (by simp)
        · rw [hbr, except_bind_ok] at hph
          have hchain : chips g3 = sumStacks g := by
            have h1 := resetForNewHand_chips shuffled g
            have h2 := postBlinds_chips (resetForNewHand shuffled g) g1 hpb
            have h3 := dealHoleCards_chips g1 g2 hdh
            have h4 := bettingRound_chips B preflopStreet g2 g3 bb hbr
            have hpz : (resetForNewHand shuffled g).pot = 0 := rfl
            have hss : sumStacks (resetForNewHand shuffled g) =
                chips (resetForNewHand shuffled g) := by
              unfold chips
              rw [hpz]
              ring
            rw [h4.1, h3.1, h2.1, hss, h1.1]
          dsimp only at hph
          split at hph
          · have hps := playFlop_spec B _ g3 g' t hph
            have hcc := hps.1
            rw [hchain] at hcc
            exact ⟨hcc, hps.2⟩
          · have hps := foldReturn_spec g3 g' t hph
            have hcc := hps.1
            rw [hchain] at hcc
            exact ⟨hcc, hps.2⟩

/-- A complete concrete hand (blinds 5/10, both stacks 1000, button folds
preflop): the big blind wins the 15-chip pot, final stacks are 1005/995 and
the pot is zero — the scenario of the specification and a live instance of
the chip-conservation theorem. -/
theorem playHand_fold_scenario :
    ∃ gf, playHand foldBrains c6Deck c6Game =
      .ok (gf, [.player 0, .num 15, .str opponentFolded]) ∧
      gf.players.map Player.stack = [1005, 995] ∧ gf.pot = 0 :=
  ⟨_, by with_unfolding_all rfl, by with_unfolding_all rfl, rfl⟩

/-! ### C6: the play_hand result tuple -/

theorem foldReturn_tuple (g g' : PokerGame) (t : List PyVal)
    (h : foldReturn g = .ok (g', t)) :
    ∃ w a d, t = [.player w, .num a, .str d] := by
  unfold foldReturn at h
  rcases hf : g.players.findIdx? (fun p => p.is_active) with _ | w
  · rw [hf] at h
    exact absurd h (by simp)
  · rw [hf] at h
    dsimp only at h
    simp only [Except.ok.injEq, Prod.mk.injEq] at h
    obtain ⟨rfl, rfl⟩ := h
    exact ⟨w, g.pot, opponentFolded, rfl⟩

theorem playShowdown_tuple (g g' : PokerGame) (t : List PyVal)
    (h : playShowdown g = .ok (g', t)) :
    ∃ w a d, t = [.player w, .num a, .str d] := by
  unfold playShowdown at h
  rcases hs : showdown g with e | ⟨g1, w, d⟩
  · rw [hs, except_bind_error] at h
    exact absurd h (by simp)
  · rw [hs, except_bind_ok] at h
    dsimp only at h
    simp only [Except.ok.injEq, Prod.mk.injEq] at h
    obtain ⟨rfl, rfl⟩ := h
    exact ⟨w, g1.pot, d, rfl⟩

theorem playRiver_tuple (B : Brains) (bai : Bool) (g g' : PokerGame)
    (t : List PyVal) (h : playRiver B bai g = .ok (g', t)) :
    ∃ w a d, t = [.player w, .num a, .str d] := by
  unfold playRiver at h
  split at h
  · rcases hd : dealRiver g with e | g2
    · rw [hd, except_bind_error] at h
      exact absurd h (by simp)
    · rw [hd, except_bind_ok] at h
      split at h
      · exact playShowdown_tuple g2 g' t h
      · rcases hb : bettingRound B riverStreet g2 with e | ⟨g3, bb⟩
        · rw [hb, except_bind_error] at h
          exact absurd h (by simp)
        · rw [hb, except_bind_ok] at h
          dsimp only at h
          split at h
          · exact playShowdown_tuple g3 g' t h
          · exact foldReturn_tuple g3 g' t h
  · exact playShowdown_tuple g g' t h

theorem playTurn_tuple (B : Brains) (bai : Bool) (g g' : PokerGame)
    (t : List PyVal) (h : playTurn B bai g = .ok (g', t)) :
    ∃ w a d, t = [.player w, .num a, .str d] := by
  unfold playTurn at h
  split at h
  · rcases hd : dealTurn g with e | g2
    · rw [hd, except_bind_error] at h
      exact absurd h (by simp)
    · rw [hd, except_bind_ok] at h
      split at h
      · exact playRiver_tuple B bai g2 g' t h
      · rcases hb : bettingRound B turnStreet g2 with e | ⟨g3, bb⟩
        · rw [hb, except_bind_error] at h
          exact absurd h (by simp)
        · rw [hb, except_bind_ok] at h
          dsimp only at h
          split at h
          · exact playRiver_tuple B bai g3 g' t h
          · exact foldReturn_tuple g3 g' t h
  · exact playRiver_tuple B bai g g' t h

theorem playFlop_tuple (B : Brains) (bai : Bool) (g g' : PokerGame)
    (t : List PyVal) (h : playFlop B bai g = .ok (g', t)) :
    ∃ w a d, t = [.player w, .num a, .str d] := by
  unfold playFlop at h
  split at h
  · rcases hd : dealFlop g with e | g2
    · rw [hd, except_bind_error] at h
      exact absurd h (by simp)
    · rw [hd, except_bind_ok] at h
      split at h
      · exact playTurn_tuple B bai g2 g' t h
      · rcases hb : bettingRound B flopStreet g2 with e | ⟨g3, bb⟩
        · rw [hb, except_bind_error] at h
          exact absurd h (by simp)
        · rw [hb, except_bind_ok] at h
          dsimp only at h
          split at h
          · exact playTurn_tuple B bai g3 g' t h
          · exact foldReturn_tuple g3 g' t h
  · exact playTurn_tuple B bai g g' t h

theorem playHand_tuple (B : Brains) (shuffled : List Card) (g g' : PokerGame)
    (t : List PyVal) (h : playHand B shuffled g = .ok (g', t)) :
    ∃ w a d, t = [.player w, .num a, .str d] := by
  unfold playHand at h
  replace h : (postBlinds (resetForNewHand shuffled g) >>= fun g1 =>
      dealHoleCards g1 >>= fun g2 =>
      bettingRound B preflopStreet g2 >>= fun s =>
      if s.2 then
        playFlop B (s.1.players.all fun p => p.is_all_in || !p.is_active) s.1
      else foldReturn s.1) = Except.ok (g', t) := h
  rcases hpb : postBlinds (resetForNewHand shuffled g) with e | g1
  · rw [hpb, except_bind_error] at h
    exact absurd h (by simp)
  · rw [hpb, except_bind_ok] at h
    rcases hdh : dealHoleCards g1 with e | g2
    · rw [hdh, except_bind_error] at h
      exact absurd h (by simp)
    · rw [hdh, except_bind_ok] at h
      rcases hbr : bettingRound B preflopStreet g2 with e | ⟨g3, bb⟩
      · rw [hbr, except_bind_error] at h
        exact absurd h (by simp)
      · rw [hbr, except_bind_ok] at h
        dsimp only at h
        split at h
        · exact playFlop_tuple B _ g3 g' t h
        · exact foldReturn_tuple g3 g' t h

theorem simExecAction_phase (g : SimGame) (i : Nat) (lr : Option Nat)
    (a : String) (s : ℚ) :
    (simExecAction g i lr a s).game.game_phase = g.game_phase := by
  unfold simExecAction SimActOut.game
  by_cases h1 : a = "fold"
  · rw [if_pos h1]
  · rw [if_neg h1]
    by_cases h2 : a = "check"
    · rw [if_pos h2]
    · rw [if_neg h2]
      by_cases h3 : a = "call"
      · rw [if_pos h3]
      · rw [if_neg h3]
        by_cases h4 : a = "raise"
        · rw [if_pos h4]
        · rw [if_neg h4]

theorem simTrackVpip_phase (phase : String) (g : SimGame) (i : Nat) (a : String) :
    (simTrackVpip phase g i a).game_phase = g.game_phase := by
  unfold simTrackVpip
  split
  · rfl
  · rfl

theorem simBettingLoop_phase (phase : String) :
    ∀ (fuel : Nat) (g : SimGame) (order : List Nat) (ac : Nat) (lr : Option Nat)
      (g' : SimGame) (b : Bool),
      simBettingLoop phase fuel g order ac lr = .ok (g', b) →
      g'.game_phase = g.game_phase := by
  intro fuel
  induction fuel with
  | zero =>
    intro g order ac lr g' b h
    exact absurd h (by simp [simBettingLoop])
  | succ n ih =>
    intro g order ac lr g' b h
    unfold simBettingLoop at h
    dsimp only at h
    split at h
    · split at h
      · simp only [Except.ok.injEq, Prod.mk.injEq] at h
        obtain ⟨rfl, rfl⟩ := h
        rfl
      · exact ih _ _ _ _ _ _ h
    · split at h
      · simp only [Except.ok.injEq, Prod.mk.injEq] at h
        obtain ⟨rfl, rfl⟩ := h
        rfl
      · split at h
        · simp only [Except.ok.injEq, Prod.mk.injEq] at h
          obtain ⟨rfl, rfl⟩ := h
          rfl
        · set d := simDecideAction phase g
            (g.players.getD (order.getD (ac % order.length) 0) dfltSimPlayer) with hd
          set g2 := simTrackVpip phase g (order.getD (ac % order.length) 0) d.1 with hg2
          rcases hea : simExecAction g2 (order.getD (ac % order.length) 0) lr d.1 d.2
            with gf | ⟨gc, lr2⟩
          all_goals rw [hea] at h
          all_goals have hex := (simExecAction_phase g2
            (order.getD (ac % order.length) 0) lr d.1 d.2)
          all_goals rw [hea] at hex
          all_goals dsimp only [SimActOut.game] at hex
          all_goals have hvp := (simTrackVpip_phase phase g
            (order.getD (ac % order.length) 0) d.1)
          · dsimp only at h
            simp only [Except.ok.injEq, Prod.mk.injEq] at h
            obtain ⟨rfl, rfl⟩ := h
            rw [hex, hg2]
            exact hvp
          · dsimp only at h
            split at h
            · exact absurd h (by simp)
            · have hrec := ih gc order (ac + 1) lr2 g' b h
              rw [hrec, hex, hg2]
              exact hvp

theorem simBettingRound_phase (phase : String) (g g' : SimGame) (b : Bool)
    (h : simBettingRound phase g = .ok (g', b)) :
    g'.game_phase = g.game_phase := by
  unfold simBettingRound at h
  dsimp only at h
  set g1 := if phase ≠ preflopStreet then { g with current_bet := 0, players := g.players.map (fun p => { p with current_bet := 0 }) } else g with hg1
  have hph1 : g1.game_phase = g.game_phase := by
    rw [hg1]
    split
    · rfl
    · rfl
  split at h
  · simp only [Except.ok.injEq, Prod.mk.injEq] at h
    obtain ⟨rfl, rfl⟩ := h
    exact hph1
  · have hlp := simBettingLoop_phase phase bettingFuel g1 _ 0 none g' b h
    rw [hlp, hph1]

theorem simDealFlop_phase (g g2 : SimGame) (h : simDealFlop g = .ok g2) :
    g2.game_phase = flopStreet := by
  unfold simDealFlop at h
  rcases h1 : dealCards g.deck 1 with e | ⟨bn, d1⟩
  · rw [h1, except_bind_error] at h
    exact absurd h (by simp)
  · rw [h1, except_bind_ok] at h
    dsimp only at h
    rcases h2 : dealCards d1 3 with e | ⟨fl, d2⟩
    · rw [h2, except_bind_error] at h
      exact absurd h (by simp)
    · rw [h2, except_bind_ok] at h
      dsimp only at h
      simp only [Except.ok.injEq] at h
      subst h
      rfl

theorem simDealTurn_phase (g g2 : SimGame) (h : simDealTurn g = .ok g2) :
    g2.game_phase = turnStreet := by
  unfold simDealTurn at h
  rcases h1 : dealCards g.deck 1 with e | ⟨bn, d1⟩
  · rw [h1, except_bind_error] at h
    exact absurd h (by simp)
  · rw [h1, except_bind_ok] at h
    dsimp only at h
    rcases h2 : dealCards d1 1 with e | ⟨tc, d2⟩
    · rw [h2, except_bind_error] at h
      exact absurd h (by simp)
    · rw [h2, except_bind_ok] at h
      dsimp only at h
      simp only [Except.ok.injEq] at h
      subst h
      rfl

theorem simDealRiver_phase (g g2 : SimGame) (h : simDealRiver g = .ok g2) :
    g2.game_phase = riverStreet := by
  unfold simDealRiver at h
  rcases h1 : dealCards g.deck 1 with e | ⟨bn, d1⟩
  · rw [h1, except_bind_error] at h
    exact absurd h (by simp)
  · rw [h1, except_bind_ok] at h
    dsimp only at h
    rcases h2 : dealCards d1 1 with e | ⟨rc, d2⟩
    · rw [h2, except_bind_error] at h
      exact absurd h (by simp)
    · rw [h2, except_bind_ok] at h
      dsimp only at h
      simp only [Except.ok.injEq] at h
      subst h
      rfl

theorem simDealHoleCardsAux_phase (idxs : List Nat) :
    ∀ (g g' : SimGame), simDealHoleCardsAux g idxs = .ok g' →
      g'.game_phase = g.game_phase := by
  induction idxs with
  | nil =>
    intro g g' h
    unfold simDealHoleCardsAux at h
    simp only [Except.ok.injEq] at h
    subst h
    rfl
  | cons i rest ih =>
    intro g g' h
    unfold simDealHoleCardsAux at h
    rcases h1 : dealCards g.deck 2 with e | ⟨dealt, deck⟩
    · rw [h1, except_bind_error] at h
      exact absurd h (by simp)
    · rw [h1, except_bind_ok] at h
      dsimp only at h
      have hrec := ih _ _ h
      rw [hrec]

theorem simPostBlinds_phase (g g' : SimGame) (h : simPostBlinds g = .ok g') :
    g'.game_phase = g.game_phase := by
  unfold simPostBlinds at h
  rcases hbi : g.players.findIdx? (fun p => p.position == 1) with _ | bi
  all_goals rcases hbbi : g.players.findIdx? (fun p => p.position == 0) with _ | bbi
  all_goals rw [hbi, hbbi] at h
  · exact absurd h (by simp)
  · exact absurd h (by simp)
  · exact absurd h (by simp)
  · simp only [Except.ok.injEq] at h
    subst h
    rfl

theorem simShowdown_phase (g g1 : SimGame) (w : Nat) (d : String)
    (h : simShowdown g = .ok (g1, w, d)) : g1.game_phase = showdownPhase := by
  unfold simShowdown at h
  dsimp only at h
  split at h
  · simp only [Except.ok.injEq, Prod.mk.injEq] at h
    obtain ⟨rfl, rfl, rfl⟩ := h
    rfl
  · rcases hl : simShowdownLoop { g with game_phase := showdownPhase }
        (List.filter (fun i => (g.players.getD i dfltSimPlayer).is_active)
          (List.range g.players.length)) none with e | ⟨w2, s2⟩
    · rw [hl, except_bind_error] at h
      exact absurd h (by simp)
    · rw [hl, except_bind_ok] at h
      dsimp only at h
      simp only [Except.ok.injEq, Prod.mk.injEq] at h
      obtain ⟨rfl, rfl, rfl⟩ := h
      rfl

theorem simFoldReturn_tuple (g g' : SimGame) (t : List PyVal)
    (h : simFoldReturn g = .ok (g', t)) :
    (∃ w a, t = [.player w, .num a, .str opponentFolded, .bool false]) ∧
    g'.game_phase = g.game_phase := by
  unfold simFoldReturn at h
  rcases hf : g.players.findIdx? (fun p => p.is_active) with _ | w
  · rw [hf] at h
    exact absurd h (by simp)
  · rw [hf] at h
    dsimp only at h
    simp only [Except.ok.injEq, Prod.mk.injEq] at h
    obtain ⟨rfl, rfl⟩ := h
    exact ⟨⟨w, g.pot, rfl⟩, rfl⟩

theorem simPlayShowdown_tuple (g g' : SimGame) (t : List PyVal)
    (h : simPlayShowdown g = .ok (g', t)) :
    (∃ w a d, t = [.player w, .num a, .str d, .bool true]) ∧
    g'.game_phase = showdownPhase := by
  unfold simPlayShowdown at h
  rcases hs : simShowdown g with e | ⟨g1, w, d⟩
  · rw [hs, except_bind_error] at h
    exact absurd h (by simp)
  · rw [hs, except_bind_ok] at h
    dsimp only at h
    simp only [Except.ok.injEq, Prod.mk.injEq] at h
    obtain ⟨rfl, rfl⟩ := h
    exact ⟨⟨w, g1.pot, d, rfl⟩, simShowdown_phase g g1 w d hs⟩

theorem simPlayRiver_tuple (bai : Bool) (g g' : SimGame) (t : List PyVal)
    (h : simPlayRiver bai g = .ok (g', t)) :
    ∃ w a d f, t = [.player w, .num a, .str d, .bool f] ∧
      (f = true ↔ g'.game_phase = showdownPhase) := by
  unfold simPlayRiver at h
  split at h
  · rcases hd : simDealRiver g with e | g2
    · rw [hd, except_bind_error] at h
      exact absurd h (by simp)
    · rw [hd, except_bind_ok] at h
      split at h
      · obtain ⟨⟨w, a, d, rfl⟩, hph⟩ := simPlayShowdown_tuple g2 g' t h
        exact ⟨w, a, d, true, rfl, iff_of_true rfl hph⟩
      · rcases hb : simBettingRound riverStreet g2 with e | ⟨g3, bb⟩
        · rw [hb, except_bind_error] at h
          exact absurd h (by simp)
        · rw [hb, except_bind_ok] at h
          dsimp only at h
          split at h
          · obtain ⟨⟨w, a, d, rfl⟩, hph⟩ := simPlayShowdown_tuple g3 g' t h
            exact ⟨w, a, d, true, rfl, iff_of_true rfl hph⟩
          · obtain ⟨⟨w, a, rfl⟩, hph⟩ := simFoldReturn_tuple g3 g' t h
            refine ⟨w, a, opponentFolded, false, rfl, iff_of_false (by simp) ?_⟩
            rw [hph, simBettingRound_phase riverStreet g2 g3 bb hb,
              simDealRiver_phase g g2 hd]
            simp [riverStreet, showdownPhase]
  · obtain ⟨⟨w, a, d, rfl⟩, hph⟩ := simPlayShowdown_tuple g g' t h
    exact ⟨w, a, d, true, rfl, iff_of_true rfl hph⟩

theorem simPlayTurn_tuple (bai : Bool) (g g' : SimGame) (t : List PyVal)
    (h : simPlayTurn bai g = .ok (g', t)) :
    ∃ w a d f, t = [.player w, .num a, .str d, .bool f] ∧
      (f = true ↔ g'.game_phase = showdownPhase) := by
  unfold simPlayTurn at h
  split at h
  · rcases hd : simDealTurn g with e | g2
    · rw [hd, except_bind_error] at h
      exact absurd h (by simp)
    · rw [hd, except_bind_ok] at h
      split at h
      · exact simPlayRiver_tuple bai g2 g' t h
      · rcases hb : simBettingRound turnStreet g2 with e | ⟨g3, bb⟩
        · rw [hb, except_bind_error] at h
          exact absurd h (by simp)
        · rw [hb, except_bind_ok] at h
          dsimp only at h
          split at h
          · exact simPlayRiver_tuple bai g3 g' t h
          · obtain ⟨⟨w, a, rfl⟩, hph⟩ := simFoldReturn_tuple g3 g' t h
            refine ⟨w, a, opponentFolded, false, rfl, iff_of_false (by simp) ?_⟩
            rw [hph, simBettingRound_phase turnStreet g2 g3 bb hb,
              simDealTurn_phase g g2 hd]
            simp [turnStreet, showdownPhase]
  · exact simPlayRiver_tuple bai g g' t h

theorem simPlayFlop_tuple (bai : Bool) (g g' : SimGame) (t : List PyVal)
    (h : simPlayFlop bai g = .ok (g', t)) :
    ∃ w a d f, t = [.player w, .num a, .str d, .bool f] ∧
      (f = true ↔ g'.game_phase = showdownPhase) := by
  unfold simPlayFlop at h
  split at h
  · rcases hd : simDealFlop g with e | g2
    · rw [hd, except_bind_error] at h
      exact absurd h (by simp)
    · rw [hd, except_bind_ok] at h
      split at h
      · exact simPlayTurn_tuple bai g2 g' t h
      · rcases hb : simBettingRound flopStreet g2 with e | ⟨g3, bb⟩
        · rw [hb, except_bind_error] at h
          exact absurd h (by simp)
        · rw [hb, except_bind_ok] at h
          dsimp only at h
          split at h
          · exact simPlayTurn_tuple bai g3 g' t h
          · obtain ⟨⟨w, a, rfl⟩, hph⟩ := simFoldReturn_tuple g3 g' t h
            refine ⟨w, a, opponentFolded, false, rfl, iff_of_false (by simp) ?_⟩
            rw [hph, simBettingRound_phase flopStreet g2 g3 bb hb,
              simDealFlop_phase g g2 hd]
            simp [flopStreet, showdownPhase]
  · exact simPlayTurn_tuple bai g g' t h

/-- C6 (amended): `PokerGame.play_hand` returns a 3-tuple
`(winner, amount_won, description)` with no showdown flag; it is
`SimulationGame.play_hand` that returns the 4-tuple, and there the fourth
component is `True` exactly when the hand ended at showdown (equivalently,
when the final game phase is the showdown phase) rather than by a fold. -/
theorem C6_amended_play_hand_tuple (B : Brains) (shuffled : List Card)
    (g : PokerGame) (sg : SimGame) :
    (match playHand B shuffled g with
     | .ok r => ∃ w a d, r.2 = [.player w, .num a, .str d]
     | .error _ => True) ∧
    (match simPlayHand shuffled sg with
     | .ok r => ∃ w a d f, r.2 = [.player w, .num a, .str d, .bool f] ∧
         (f = true ↔ r.1.game_phase = showdownPhase)
     | .error _ => True) := by
  constructor
  · rcases hph : playHand B shuffled g with e | ⟨g', t⟩
    · trivial
    · exact playHand_tuple B shuffled g g' t hph
  · rcases hph : simPlayHand shuffled sg with e | ⟨g', t⟩
    · trivial
    · show ∃ w a d f, t = [.player w, .num a, .str d, .bool f] ∧
        (f = true ↔ g'.game_phase = showdownPhase)
      unfold simPlayHand at hph
      replace hph : (simPostBlinds (simReset shuffled sg) >>= fun g1 =>
          simDealHoleCards g1 >>= fun g2 =>
          simBettingRound preflopStreet g2 >>= fun s =>
          if s.2 then
            simPlayFlop (s.1.players.all fun p => p.is_all_in || !p.is_active) s.1
          else simFoldReturn s.1) = Except.ok (g', t) := hph
      rcases hpb : simPostBlinds (simReset shuffled sg) with e | g1
      · rw [hpb, except_bind_error] at hph
        exact absurd hph (by simp)
      · rw [hpb, except_bind_ok] at hph
        rcases hdh : simDealHoleCards g1 with e | g2
        · rw [hdh, except_bind_error] at hph
          exact absurd hph (by simp)
        · rw [hdh, except_bind_ok] at hph
          rcases hbr : simBettingRound preflopStreet g2 with e | ⟨g3, bb⟩
          · rw [hbr, except_bind_error] at hph
            exact absurd hph (by simp)
          · rw [hbr, except_bind_ok] at hph
            dsimp only at hph
            split at hph
            · exact simPlayFlop_tuple _ g3 g' t hph
            · obtain ⟨⟨w, a, rfl⟩, hphse⟩ := simFoldReturn_tuple g3 g' t hph
              refine ⟨w, a, opponentFolded, false, rfl,
                iff_of_false (by simp) ?_⟩
              rw [hphse, simBettingRound_phase preflopStreet g2 g3 bb hbr,
                simDealHoleCardsAux_phase _ g1 g2 hdh,
                simPostBlinds_phase (simReset shuffled sg) g1 hpb]
              simp [simReset, preflopStreet, showdownPhase]

/-- C6 counterexample: a complete concrete hand through
`PokerGame.play_hand` returns the 3-element tuple
`(winner, amount_won, description)` — there is no fourth
`went_to_showdown` component. -/
theorem C6_counterexample_three_tuple :
    ∃ gf, playHand foldBrains c6Deck c6Game =
      .ok (gf, [.player 0, .num 15, .str opponentFolded]) ∧
      ([PyVal.player 0, PyVal.num 15, PyVal.str opponentFolded] : List PyVal).length
        = 3 :=
  ⟨_, by with_unfolding_all rfl, rfl⟩

end Limitless
